import Mathlib

/-!
Verification development for the tinyvectors physics core.

The TypeScript sources under src/core are shallowly embedded: numbers are
modelled by the rationals (the sources only use +, -, *, /, min, max, abs,
floor, ceil and comparisons on finite doubles in the verified paths),
in-place mutation becomes explicit state passing, and the unseeded random
draws and wall-clock reads are passed in as explicit parameters.  Each
definition mirrors one function of the source; deviations forced by the
embedding (for example, the transcendental Math.exp inside the Gaussian
weight computation) are noted in the corresponding doc comment.
-/

namespace TinyVectors

/-! ## Data model (src/core/types.ts)

ControlPoint and ControlPointVelocity carry exactly the fields of the
TypeScript interfaces; the optional fields (pressure, adhesion, tension,
pressureVelocity) are modelled as always-present rationals, which is how
every initializer in the repository populates them. -/

structure ControlPoint where
  radius : ℚ
  angle : ℚ
  targetRadius : ℚ
  baseRadius : ℚ
  pressure : ℚ
  adhesion : ℚ
  tension : ℚ
deriving DecidableEq, Repr

structure ControlPointVelocity where
  radialVelocity : ℚ
  angularVelocity : ℚ
  pressureVelocity : ℚ
deriving DecidableEq, Repr

/-- Dummy control point used as the (never consulted) default of list
indexing; every index the embedded code produces is in range whenever the
source's own index is. -/
def dcp : ControlPoint := ⟨0, 0, 0, 0, 0, 0, 0⟩

/-- Dummy velocity record, same role as `dcp`. -/
def dvel : ControlPointVelocity := ⟨0, 0, 0⟩

/-! ## SpatialHash (src/core/SpatialHash.ts)

Blobs are stored in the hash by object identity; only `currentX` and
`currentY` are consulted.  `HBlob` models a blob reference by an identity
tag together with the two consulted coordinates. -/

structure HBlob where
  id : ℕ
  currentX : ℚ
  currentY : ℚ
deriving DecidableEq, Repr

/-- Cell key of a position, `(floor(x/cellSize), floor(y/cellSize))`.
The source encodes the pair as the string `cellX,cellY`; that encoding is
injective on integer pairs, so the key is modelled as the pair itself. -/
def hashKey (cellSize : ℚ) (b : HBlob) : ℤ × ℤ :=
  (⌊b.currentX / cellSize⌋, ⌊b.currentY / cellSize⌋)

/-- Contents of one cell after `rebuild(blobs)`: `rebuild` clears the map
and pushes each blob, in input order, onto the bucket of its key, so the
bucket of `key` is exactly the input filtered to that key (a missing map
entry corresponds to the empty bucket). -/
def cellList (cellSize : ℚ) (blobs : List HBlob) (key : ℤ × ℤ) : List HBlob :=
  blobs.filter (fun b => hashKey cellSize b = key)

/-- The values taken by the loop variable `for (let d = -cellRadius; d <= cellRadius; d++)`:
`-cellRadius, …, cellRadius`, and the empty list when `cellRadius < 0`. -/
def cellOffsets (cellRadius : ℤ) : List ℤ :=
  (List.range (2 * cellRadius + 1).toNat).map (fun (i : ℕ) => -cellRadius + (i : ℤ))

/-- Squared distance between the query point and a blob, as computed inside
`query`. -/
def blobDist2 (x y : ℚ) (b : HBlob) : ℚ :=
  (b.currentX - x) * (b.currentX - x) + (b.currentY - y) * (b.currentY - y)

/-- `SpatialHash.query(x, y, radius, excludeBlob)` over the hash built by
`rebuild(blobs)` with cell size `cellSize`: visit every cell within
`ceil(radius/cellSize)` cells of the query point's cell, skip the excluded
blob, and keep blobs with `distSquared < radiusSquared`. -/
def query (cellSize : ℚ) (blobs : List HBlob) (x y radius : ℚ)
    (excludeBlob : Option HBlob) : List HBlob :=
  let cellRadius : ℤ := ⌈radius / cellSize⌉
  let radiusSquared := radius * radius
  let centerCellX : ℤ := ⌊x / cellSize⌋
  let centerCellY : ℤ := ⌊y / cellSize⌋
  (cellOffsets cellRadius).flatMap (fun dx =>
    (cellOffsets cellRadius).flatMap (fun dy =>
      (cellList cellSize blobs (centerCellX + dx, centerCellY + dy)).filter (fun b =>
        excludeBlob ≠ some b ∧ blobDist2 x y b < radiusSquared)))

/-- The brute-force O(n²) scan the specification compares `query` against:
filter the indexed blobs by the same exclusion and the same strict
squared-distance test. -/
def bruteForceQuery (blobs : List HBlob) (x y radius : ℚ)
    (excludeBlob : Option HBlob) : List HBlob :=
  blobs.filter (fun b => excludeBlob ≠ some b ∧ blobDist2 x y b < radius * radius)

/-- Keys of the occupied cells, one entry per distinct key, as iterated by
`for (const [key, blobs] of this.cells)` (order is irrelevant to the
verified properties, so first-insertion order is modelled up to
permutation by `dedup`). -/
def occupiedKeys (cellSize : ℚ) (blobs : List HBlob) : List (ℤ × ℤ) :=
  (blobs.map (hashKey cellSize)).dedup

/-- The ordered pairs `(blobs[i], blobs[j])` with `i < j`, in the iteration
order of the double loop inside `getAllPairs`. -/
def forwardPairs : List HBlob → List (HBlob × HBlob)
  | [] => []
  | b :: bs => (bs.map (fun c => (b, c))) ++ forwardPairs bs

/-- Squared center distance of a candidate pair, as computed in
`getAllPairs`. -/
def pairDist2 (p : HBlob × HBlob) : ℚ :=
  (p.2.currentX - p.1.currentX) * (p.2.currentX - p.1.currentX) +
    (p.2.currentY - p.1.currentY) * (p.2.currentY - p.1.currentY)

/-- The four forward neighbor cell offsets checked by `getAllPairs`. -/
def neighborOffsets : List (ℤ × ℤ) := [(1, 0), (1, 1), (0, 1), (-1, 1)]

/-- `SpatialHash.getAllPairs(interactionRadius)` over the hash built from
`blobs`: for every occupied cell, the same-cell pairs `i < j` within the
radius, then for each of the four forward offsets all pairs between the
cell and that neighbor cell within the radius.  The third component of the
source's tuples, `Math.sqrt(distSquared)`, is irrational in general and is
dropped; the verified claims only concern the two blob components. -/
def getAllPairs (cellSize : ℚ) (blobs : List HBlob)
    (interactionRadius : ℚ) : List (HBlob × HBlob) :=
  let radiusSquared := interactionRadius * interactionRadius
  (occupiedKeys cellSize blobs).flatMap (fun key =>
    let cell := cellList cellSize blobs key
    (forwardPairs cell).filter (fun p => pairDist2 p < radiusSquared) ++
      neighborOffsets.flatMap (fun o =>
        (cell ×ˢ cellList cellSize blobs (key.1 + o.1, key.2 + o.2)).filter
          (fun p => pairDist2 p < radiusSquared)))

/-! ## GaussianKernel (src/core/GaussianKernel.ts)

`computeWeights` evaluates `Math.exp(-(x*x)/(2*sigma*sigma))` at the
integer offsets `x = i - halfSize`.  The exponential is transcendental, so
the map `x ↦ exp(-x²/(2σ²))` is abstracted as an explicit parameter
`g : ℤ → ℚ`; the facts the proofs assume about `g` (strict positivity) are
true of the real exponential for every sigma.  Everything downstream of
the weights is embedded exactly. -/

structure GaussianKernel where
  size : ℕ
  halfSize : ℕ
  weights : List ℚ
deriving DecidableEq, Repr

/-- `computeWeights(sigma)`: raw weights `g(i - halfSize)` for
`i = 0, …, size-1`, then divide every entry by their sum. -/
def computeWeights (g : ℤ → ℚ) (size halfSize : ℕ) : List ℚ :=
  let raw := (List.range size).map (fun (i : ℕ) => g ((i : ℤ) - halfSize))
  let sum := raw.sum
  raw.map (fun w => w / sum)

/-- The `GaussianKernel` constructor: even sizes are bumped to the next odd
number, `halfSize = floor(size/2)`, weights from `computeWeights`. -/
def mkGaussianKernel (size : ℕ) (g : ℤ → ℚ) : GaussianKernel :=
  let s := if size % 2 = 0 then size + 1 else size
  let h := s / 2
  { size := s, halfSize := h, weights := computeWeights g s h }

/-- The circular read index `(i + j - halfSize + n) % n` of the
convolution loops.  JavaScript `%` truncates toward zero (`Int.tmod`); for
`halfSize ≤ n` (true of every kernel/boundary combination the claims
range over, and of the shipped kernel `size = 5` on every boundary of at
least 3 points) the dividend is nonnegative and the result is the
ordinary remainder in `[0, n)`. -/
def convolveIndex (n halfSize : ℕ) (i j : ℕ) : ℕ :=
  (((i : ℤ) + j - halfSize + n).tmod n).toNat

/-- `GaussianKernel.convolve(points)`: no-op below 3 points; otherwise
copy the original radii and give point `i` the radius
`Σ_j original[(i+j-half+n) % n] * weights[j]`.  All reads go to the copy,
so the in-place writes of the source commute into one functional map. -/
def convolve (k : GaussianKernel) (points : List ControlPoint) : List ControlPoint :=
  let n := points.length
  if n < 3 then points
  else
    let originalRadii := points.map (fun p => p.radius)
    points.mapIdx (fun i p =>
      { p with radius := ∑ j ∈ Finset.range k.size,
          originalRadii.getD (convolveIndex n k.halfSize i j) 0 * k.weights.getD j 0 })

/-- `GaussianKernel.convolveArray(radii, count)`: the same accumulation
into a fresh buffer of length `count`, with no degenerate-size guard. -/
def convolveArray (k : GaussianKernel) (radii : List ℚ) (count : ℕ) : List ℚ :=
  (List.range count).map (fun i =>
    ∑ j ∈ Finset.range k.size,
      radii.getD (convolveIndex count k.halfSize i j) 0 * k.weights.getD j 0)

/-- Mean of a radii list (`sum / n`), the quantity `computeVariance`
centers on. -/
def listMean (radii : List ℚ) : ℚ := radii.sum / radii.length

/-- `GaussianKernel.computeVariance(radii)`: population variance, 0 for
the empty input. -/
def computeVariance (radii : List ℚ) : ℚ :=
  if radii.length = 0 then 0
  else
    let mean := radii.sum / radii.length
    ((radii.map (fun r => (r - mean) * (r - mean))).sum) / radii.length

/-! ## SpringSystem (src/core/SpringSystem.ts) -/

structure SpringConfig where
  springConstant : ℚ
  dampingCoeff : ℚ
  couplingStrength : ℚ
  surfaceTension : ℚ
  pressure : ℚ
  maxDeformation : ℚ
  maxVelocity : ℚ
deriving DecidableEq, Repr

/-- `DEFAULT_SPRING_CONFIG` of the source. -/
def DEFAULT_SPRING_CONFIG : SpringConfig :=
  { springConstant := 0.08
    dampingCoeff := 0.12
    couplingStrength := 0.05
    surfaceTension := 0.03
    pressure := 1.0
    maxDeformation := 0.3
    maxVelocity := 2.0 }

/-- The six-term force sum of `SpringSystem.updateControlPoint` (steps 1-6
of the source). -/
def totalForce (cfg : SpringConfig) (point : ControlPoint)
    (velocity : ControlPointVelocity) (leftNeighbor rightNeighbor : ControlPoint)
    (externalForce : ℚ) : ℚ :=
  let displacement := point.radius - point.baseRadius
  let fSpring := -cfg.springConstant * displacement
  let avgNeighborRadius := (leftNeighbor.radius + rightNeighbor.radius) / 2
  let tensionDisplacement := point.radius - avgNeighborRadius
  let fTension := -cfg.surfaceTension * tensionDisplacement
  let pressureDeviation := cfg.pressure - 1.0
  let fPressure := pressureDeviation * point.baseRadius * 0.01
  let leftDisplacement := leftNeighbor.radius - point.radius
  let rightDisplacement := rightNeighbor.radius - point.radius
  let fCoupling := cfg.couplingStrength * (leftDisplacement + rightDisplacement) * 0.5
  let fDamping := -cfg.dampingCoeff * velocity.radialVelocity
  let fExternal := externalForce
  fSpring + fTension + fPressure + fCoupling + fDamping + fExternal

/-- Velocity after the semi-implicit update and the `±maxVelocity` clamp
(`velocity.radialVelocity += F_total * dt` followed by the `Math.max`/`Math.min`
clamp). -/
def velocityAfterClamp (cfg : SpringConfig) (point : ControlPoint)
    (velocity : ControlPointVelocity) (leftNeighbor rightNeighbor : ControlPoint)
    (externalForce dt : ℚ) : ℚ :=
  let v := velocity.radialVelocity +
    totalForce cfg point velocity leftNeighbor rightNeighbor externalForce * dt
  max (-cfg.maxVelocity) (min cfg.maxVelocity v)

/-- The position update `point.radius += velocity.radialVelocity * dt`
before the radius clamp. -/
def radiusBeforeClamp (cfg : SpringConfig) (point : ControlPoint)
    (velocity : ControlPointVelocity) (leftNeighbor rightNeighbor : ControlPoint)
    (externalForce dt : ℚ) : ℚ :=
  point.radius +
    velocityAfterClamp cfg point velocity leftNeighbor rightNeighbor externalForce dt * dt

/-- `SpringSystem.updateControlPoint`: force sum, velocity clamp, position
update, radius clamp to `baseRadius*(1±maxDeformation)`, and the 0.3
bounce damping of the velocity when the resulting radius sits on either
clamp bound. -/
def updateControlPoint (cfg : SpringConfig) (point : ControlPoint)
    (velocity : ControlPointVelocity) (leftNeighbor rightNeighbor : ControlPoint)
    (externalForce dt : ℚ) : ControlPoint × ControlPointVelocity :=
  let v2 := velocityAfterClamp cfg point velocity leftNeighbor rightNeighbor externalForce dt
  let r1 := point.radius + v2 * dt
  let minRadius := point.baseRadius * (1 - cfg.maxDeformation)
  let maxRadius := point.baseRadius * (1 + cfg.maxDeformation)
  let r2 := max minRadius (min maxRadius r1)
  let v3 := if r2 = minRadius ∨ r2 = maxRadius then v2 * 0.3 else v2
  ({ point with radius := r2 }, { velocity with radialVelocity := v3 })

/-- `SpringSystem.updateAllControlPoints` with a per-point force array:
no-op below 3 points; otherwise update the points in index order, in
place, each step reading its circular neighbors from the current (already
partially updated) arrays.  `externalForces[i] || 0` is modelled by
`getD i 0`; the JavaScript left index `(i - 1 + n) % n` equals
`(i + n - 1) % n` in natural-number arithmetic. -/
def updateAllControlPoints (cfg : SpringConfig) (points : List ControlPoint)
    (velocities : List ControlPointVelocity) (externalForces : List ℚ)
    (dt : ℚ) : List ControlPoint × List ControlPointVelocity :=
  let n := points.length
  if n < 3 then (points, velocities)
  else
    (List.range n).foldl (fun st i =>
      let leftIdx := (i + n - 1) % n
      let rightIdx := (i + 1) % n
      let p := st.1.getD i dcp
      let v := st.2.getD i dvel
      let upd := updateControlPoint cfg p v (st.1.getD leftIdx dcp)
        (st.1.getD rightIdx dcp) (externalForces.getD i 0) dt
      (st.1.set i upd.1, st.2.set i upd.2)) (points, velocities)

/-- `SpringSystem.getKineticEnergy`: `Σ 0.5 * v * v`. -/
def getKineticEnergy (velocities : List ControlPointVelocity) : ℚ :=
  (velocities.map (fun v => 0.5 * v.radialVelocity * v.radialVelocity)).sum

/-- `SpringSystem.getPotentialEnergy`: `Σ 0.5 * k * displacement²`. -/
def getPotentialEnergy (cfg : SpringConfig) (points : List ControlPoint) : ℚ :=
  (points.map (fun p =>
    0.5 * cfg.springConstant * ((p.radius - p.baseRadius) * (p.radius - p.baseRadius)))).sum

/-- `SpringSystem.isAtRest(points, velocities, threshold)`. -/
def isAtRest (cfg : SpringConfig) (points : List ControlPoint)
    (velocities : List ControlPointVelocity) (threshold : ℚ) : Bool :=
  getKineticEnergy velocities + getPotentialEnergy cfg points < threshold

/-! ## BlobPhysics (src/core/BlobPhysics.ts)

`PBlob` models the blob fields consulted or written by the embedded
orchestrator operations (`handleWallBouncing`, `recordBounce`, the tail of
`updateScreensaverPhysics`, `getBlobs`); the remaining pass-through fields
of `ConvexBlob` behave identically under the spread copy in `getBlobs`
and are untouched by wall handling. -/

structure PBlob where
  currentX : ℚ
  currentY : ℚ
  velocityX : ℚ
  velocityY : ℚ
  size : ℚ
  wallBounceCount : ℕ
  lastBounceTime : ℚ
  driftAngle : ℚ
  chaosLevel : ℚ
  color : String
deriving DecidableEq, Repr

/-- The fixed extended physics bounds of the orchestrator. -/
def PHYSICS_MIN : ℚ := -40

/-- Upper physics bound. -/
def PHYSICS_MAX : ℚ := 140

/-- `BlobPhysics.recordBounce(blob, currentTime)`.  The two `Math.random()`
draws feeding the velocity kick are the parameters `rx, ry ∈ [0,1]`, and
the fresh drift heading `Math.random() * Math.PI * 2` is the parameter
`rd` (the heading feeds no verified quantity).  Every blob the simulation
creates carries control points, so the chaos bump branch is always
taken. -/
def recordBounce (blob : PBlob) (currentTime rx ry rd : ℚ) : PBlob :=
  { blob with
    wallBounceCount := blob.wallBounceCount + 1
    lastBounceTime := currentTime
    velocityX := blob.velocityX + (rx - 0.5) * 0.05
    velocityY := blob.velocityY + (ry - 0.5) * 0.05
    driftAngle := rd
    chaosLevel := min (blob.chaosLevel + 0.04) 0.15 }

/-- `BlobPhysics.handleWallBouncing(blob)` with bounce damping
`bounceDamping`, wall-clock value `currentTime` and the random draws of
the four potential `recordBounce` calls supplied as `rnd 0 … rnd 3`.  The
four wall checks run in sequence on the mutated blob, exactly as in the
source. -/
def handleWallBouncing (bounceDamping : ℚ) (currentTime : ℚ)
    (rnd : Fin 4 → ℚ × ℚ × ℚ) (blob : PBlob) : PBlob :=
  let margin := blob.size * 0.8
  let b1 := if blob.currentX < PHYSICS_MIN + margin then
      recordBounce { blob with
          currentX := PHYSICS_MIN + margin
          velocityX := |blob.velocityX| * bounceDamping }
        currentTime (rnd 0).1 (rnd 0).2.1 (rnd 0).2.2
    else blob
  let b2 := if b1.currentX > PHYSICS_MAX - margin then
      recordBounce { b1 with
          currentX := PHYSICS_MAX - margin
          velocityX := -|b1.velocityX| * bounceDamping }
        currentTime (rnd 1).1 (rnd 1).2.1 (rnd 1).2.2
    else b1
  let b3 := if b2.currentY < PHYSICS_MIN + margin * 1.5 then
      recordBounce { b2 with
          currentY := PHYSICS_MIN + margin * 1.5
          velocityY := |b2.velocityY| * bounceDamping }
        currentTime (rnd 2).1 (rnd 2).2.1 (rnd 2).2.2
    else b2
  if b3.currentY > PHYSICS_MAX - margin * 1.5 then
    recordBounce { b3 with
        currentY := PHYSICS_MAX - margin * 1.5
        velocityY := -|b3.velocityY| * bounceDamping }
      currentTime (rnd 3).1 (rnd 3).2.1 (rnd 3).2.2
  else b3

/-- The friction step closing `updateScreensaverPhysics`:
`velocity *= 0.992` on both axes. -/
def applyFriction (blob : PBlob) : PBlob :=
  { blob with velocityX := blob.velocityX * 0.992, velocityY := blob.velocityY * 0.992 }

/-- One tick of a single blob, abstracted for the bounded-motion claim:
`pre n` stands for everything `tick` does to the blob before wall handling
at tick `n` (forces, deformation, position integration — all of it
arbitrary here), followed by the faithful `handleWallBouncing` and the
friction step.  `times n` and `rnd n` supply that tick's wall-clock value
and random draws. -/
def runTicks (bounceDamping : ℚ) (pre : ℕ → PBlob → PBlob) (times : ℕ → ℚ)
    (rnd : ℕ → Fin 4 → ℚ × ℚ × ℚ) : ℕ → PBlob → PBlob
  | 0, b => b
  | n + 1, b =>
      applyFriction (handleWallBouncing bounceDamping (times n) (rnd n)
        (pre n (runTicks bounceDamping pre times rnd n b)))

/-- The orchestrator configuration fields the embedded operations consult,
with the defaults of `DEFAULT_CONFIG`. -/
structure BlobPhysicsConfig where
  antiClusteringStrength : ℚ
  bounceDamping : ℚ
  deformationSpeed : ℚ
  territoryStrength : ℚ
  viscosity : ℚ
  useSpatialHash : Bool
  useGaussianSmoothing : Bool
  useSpringSystem : Bool
  springConfig : SpringConfig
deriving DecidableEq, Repr

/-- `DEFAULT_CONFIG` of the source (with the spring defaults merged, as
the constructor does). -/
def DEFAULT_CONFIG : BlobPhysicsConfig :=
  { antiClusteringStrength := 0.15
    bounceDamping := 0.7
    deformationSpeed := 0.5
    territoryStrength := 0.1
    viscosity := 0.3
    useSpatialHash := true
    useGaussianSmoothing := true
    useSpringSystem := true
    springConfig := DEFAULT_SPRING_CONFIG }

/-- Constructor-owned state of `BlobPhysics` relevant to construction:
the stored blob count (any integer the caller passes), the merged
configuration, the initially empty blob list and the `initialized` flag. -/
structure BlobPhysicsState where
  numBlobs : ℤ
  config : BlobPhysicsConfig
  blobs : List PBlob
  initialized : Bool
deriving DecidableEq, Repr

/-- The `BlobPhysics` constructor.  Its body stores `numBlobs` and the
merged config and builds the three sub-components; it contains no
validation and no throw, so the error channel (modelled by `Except` to
make "signals an error" expressible) is never used. -/
def mkBlobPhysics (numBlobs : ℤ) (config : BlobPhysicsConfig) :
    Except String BlobPhysicsState :=
  Except.ok { numBlobs := numBlobs, config := config, blobs := [], initialized := false }

/-- `BlobPhysics.getBlobs(themeColors?)`: with a nonempty palette, return
fresh spread copies recolored by palette index modulo palette length;
otherwise return the stored blob array itself.  The method assigns to no
field, so the state component of the result is the unchanged input list;
the `getD` default is never consulted because `i % length < length` for a
nonempty palette. -/
def getBlobs (blobs : List PBlob) (themeColors : Option (List String)) :
    List PBlob × List PBlob :=
  match themeColors with
  | some colors =>
      if 0 < colors.length then
        (blobs, blobs.mapIdx (fun i b => { b with color := colors.getD (i % colors.length) b.color }))
      else (blobs, blobs)
  | none => (blobs, blobs)


/-- Default blob record used as the never-consulted list-indexing default
in statements about `getBlobs`. -/
def dpb : PBlob := ⟨0, 0, 0, 0, 0, 0, 0, 0, 0, ""⟩

/-- One integration step of the spring system as the orchestrator drives
it: `updateAllControlPoints` with no external forces (the empty per-point
force array reads as 0 everywhere, matching `externalForces[i] || 0`).
The orchestrator passes the fixed `dt = 0.016`. -/
def springStep (cfg : SpringConfig) (dt : ℚ)
    (s : List ControlPoint × List ControlPointVelocity) :
    List ControlPoint × List ControlPointVelocity :=
  updateAllControlPoints cfg s.1 s.2 [] dt

/-- Total tracked energy of a control-point system,
`getKineticEnergy + getPotentialEnergy`. -/
def totalEnergy (cfg : SpringConfig)
    (s : List ControlPoint × List ControlPointVelocity) : ℚ :=
  getKineticEnergy s.2 + getPotentialEnergy cfg s.1

/-- The default spring configuration with the two cross-point force terms
(surface tension and neighbor coupling) switched off.  Those terms are
not tracked by `getPotentialEnergy`, so they can transiently pump the
tracked energy; with them off (and the default neutral pressure 1.0) the
tracked energy is a true Lyapunov function of the integrator. -/
def decayConfig : SpringConfig :=
  { DEFAULT_SPRING_CONFIG with surfaceTension := 0, couplingStrength := 0 }

/-- Invariant carried through the energy-decay induction: a three-point
system with unit base radii whose per-point tracked energy stays within
the bound that keeps both integrator clamps inactive. -/
def decayInv (s : List ControlPoint × List ControlPointVelocity) : Prop :=
  ∃ (p1 p2 p3 : ControlPoint) (w1 w2 w3 : ControlPointVelocity),
    s = ([p1, p2, p3], [w1, w2, w3]) ∧
    p1.baseRadius = 1 ∧ p2.baseRadius = 1 ∧ p3.baseRadius = 1 ∧
    w1.radialVelocity ^ 2 / 2 + (p1.radius - 1) ^ 2 / 25 ≤ 1 / 800 ∧
    w2.radialVelocity ^ 2 / 2 + (p2.radius - 1) ^ 2 / 25 ≤ 1 / 800 ∧
    w3.radialVelocity ^ 2 / 2 + (p3.radius - 1) ^ 2 / 25 ≤ 1 / 800

/-! ## General list helpers -/

theorem getD_mapIdx {α : Type} (l : List α) (f : ℕ → α → α) (i : ℕ) (d : α)
    (h : i < l.length) : (l.mapIdx f).getD i d = f i (l.getD i d) := by
  rw [List.getD_eq_getElem?_getD, List.getElem?_mapIdx]
  simp [List.getElem?_eq_getElem, h, List.getD_eq_getElem?_getD]

theorem length_convolve (k : GaussianKernel) (points : List ControlPoint) :
    (convolve k points).length = points.length := by
  unfold convolve
  by_cases h : points.length < 3 <;> simp [h]

/-! ## Claim theorems -/

/-- Claim C4: after every `SpringSystem.updateControlPoint` call on a point
with nonnegative `baseRadius` (and nonnegative configured
`maxDeformation`), the updated radius lies within
`[baseRadius*(1-maxDeformation), baseRadius*(1+maxDeformation)]`, and
whenever the raw integrated radius falls outside that interval (the clamp
is hit) the post-clamp radial velocity is the clamped velocity damped by
the fixed factor 0.3. -/
theorem spring_radius_clamp_invariant (cfg : SpringConfig) (point : ControlPoint)
    (velocity : ControlPointVelocity) (leftNeighbor rightNeighbor : ControlPoint)
    (externalForce dt : ℚ) (hb : 0 ≤ point.baseRadius) (hD : 0 ≤ cfg.maxDeformation) :
    (point.baseRadius * (1 - cfg.maxDeformation) ≤
        (updateControlPoint cfg point velocity leftNeighbor rightNeighbor externalForce dt).1.radius ∧
      (updateControlPoint cfg point velocity leftNeighbor rightNeighbor externalForce dt).1.radius ≤
        point.baseRadius * (1 + cfg.maxDeformation)) ∧
    ((radiusBeforeClamp cfg point velocity leftNeighbor rightNeighbor externalForce dt <
        point.baseRadius * (1 - cfg.maxDeformation) ∨
      point.baseRadius * (1 + cfg.maxDeformation) <
        radiusBeforeClamp cfg point velocity leftNeighbor rightNeighbor externalForce dt) →
      (updateControlPoint cfg point velocity leftNeighbor rightNeighbor externalForce dt).2.radialVelocity =
        velocityAfterClamp cfg point velocity leftNeighbor rightNeighbor externalForce dt * 0.3) := by
  have hmM : point.baseRadius * (1 - cfg.maxDeformation) ≤
      point.baseRadius * (1 + cfg.maxDeformation) := by nlinarith
  have hr1 : radiusBeforeClamp cfg point velocity leftNeighbor rightNeighbor externalForce dt =
      point.radius + velocityAfterClamp cfg point velocity leftNeighbor rightNeighbor externalForce dt * dt := rfl
  unfold updateControlPoint
  simp only []
  refine ⟨⟨le_max_left _ _, max_le hmM (min_le_left _ _)⟩, ?_⟩
  intro hhit
  rcases hhit with h | h
  · rw [hr1] at h
    have h1 : min (point.baseRadius * (1 + cfg.maxDeformation))
        (point.radius + velocityAfterClamp cfg point velocity leftNeighbor rightNeighbor externalForce dt * dt) =
        point.radius + velocityAfterClamp cfg point velocity leftNeighbor rightNeighbor externalForce dt * dt :=
      min_eq_right (le_of_lt (lt_of_lt_of_le h hmM))
    rw [h1]
    have h2 : max (point.baseRadius * (1 - cfg.maxDeformation))
        (point.radius + velocityAfterClamp cfg point velocity leftNeighbor rightNeighbor externalForce dt * dt) =
        point.baseRadius * (1 - cfg.maxDeformation) := max_eq_left (le_of_lt h)
    rw [h2, if_pos (Or.inl rfl)]
  · rw [hr1] at h
    have h1 : min (point.baseRadius * (1 + cfg.maxDeformation))
        (point.radius + velocityAfterClamp cfg point velocity leftNeighbor rightNeighbor externalForce dt * dt) =
        point.baseRadius * (1 + cfg.maxDeformation) := min_eq_left (le_of_lt h)
    rw [h1]
    have h2 : max (point.baseRadius * (1 - cfg.maxDeformation))
        (point.baseRadius * (1 + cfg.maxDeformation)) =
        point.baseRadius * (1 + cfg.maxDeformation) := max_eq_right hmM
    rw [h2, if_pos (Or.inr rfl)]

/-- Witness for C4 at the default configuration, `baseRadius = 1`, a large
positive velocity and `dt = 1`: the radius is clamped to `1.3` and the
velocity is damped by 0.3. -/
theorem spring_radius_clamp_invariant_witness :
    (0 : ℚ) ≤ (1 : ℚ) ∧ (0 : ℚ) ≤ DEFAULT_SPRING_CONFIG.maxDeformation ∧
    ((1 : ℚ) * (1 - DEFAULT_SPRING_CONFIG.maxDeformation) ≤
        (updateControlPoint DEFAULT_SPRING_CONFIG ⟨1, 0, 0, 1, 0, 0, 0⟩ ⟨10, 0, 0⟩ dcp dcp 0 1).1.radius ∧
      (updateControlPoint DEFAULT_SPRING_CONFIG ⟨1, 0, 0, 1, 0, 0, 0⟩ ⟨10, 0, 0⟩ dcp dcp 0 1).1.radius ≤
        (1 : ℚ) * (1 + DEFAULT_SPRING_CONFIG.maxDeformation)) ∧
    ((radiusBeforeClamp DEFAULT_SPRING_CONFIG ⟨1, 0, 0, 1, 0, 0, 0⟩ ⟨10, 0, 0⟩ dcp dcp 0 1 <
        (1 : ℚ) * (1 - DEFAULT_SPRING_CONFIG.maxDeformation) ∨
      (1 : ℚ) * (1 + DEFAULT_SPRING_CONFIG.maxDeformation) <
        radiusBeforeClamp DEFAULT_SPRING_CONFIG ⟨1, 0, 0, 1, 0, 0, 0⟩ ⟨10, 0, 0⟩ dcp dcp 0 1) →
      (updateControlPoint DEFAULT_SPRING_CONFIG ⟨1, 0, 0, 1, 0, 0, 0⟩ ⟨10, 0, 0⟩ dcp dcp 0 1).2.radialVelocity =
        velocityAfterClamp DEFAULT_SPRING_CONFIG ⟨1, 0, 0, 1, 0, 0, 0⟩ ⟨10, 0, 0⟩ dcp dcp 0 1 * 0.3) := by
  refine ⟨by norm_num, by norm_num [DEFAULT_SPRING_CONFIG], ?_⟩
  exact spring_radius_clamp_invariant DEFAULT_SPRING_CONFIG ⟨1, 0, 0, 1, 0, 0, 0⟩ ⟨10, 0, 0⟩
    dcp dcp 0 1 (by norm_num) (by norm_num [DEFAULT_SPRING_CONFIG])

/-- Claim C8 (code bug in the source): the `BlobPhysics` constructor is
claimed to reject invalid immutable parameters such as a negative blob
count, but its body performs no validation: at the failing input
`numBlobs = -5` it succeeds and hands back a usable instance that simply
stores the negative count. -/
theorem constructor_accepts_negative_blob_count :
    mkBlobPhysics (-5) DEFAULT_CONFIG =
      Except.ok { numBlobs := -5, config := DEFAULT_CONFIG, blobs := [], initialized := false } :=
  rfl

/-- Claim C9: `GaussianKernel.convolve` only ever writes the `radius`
field: the length and, at every index, the `angle`, `baseRadius`,
`targetRadius`, `pressure`, `adhesion` and `tension` fields are unchanged,
and below 3 points nothing at all changes. -/
theorem convolve_writes_only_radius (k : GaussianKernel) (points : List ControlPoint) :
    (convolve k points).length = points.length ∧
    (∀ i : ℕ,
      ((convolve k points).getD i dcp).angle = (points.getD i dcp).angle ∧
      ((convolve k points).getD i dcp).baseRadius = (points.getD i dcp).baseRadius ∧
      ((convolve k points).getD i dcp).targetRadius = (points.getD i dcp).targetRadius ∧
      ((convolve k points).getD i dcp).pressure = (points.getD i dcp).pressure ∧
      ((convolve k points).getD i dcp).adhesion = (points.getD i dcp).adhesion ∧
      ((convolve k points).getD i dcp).tension = (points.getD i dcp).tension) ∧
    (points.length < 3 → convolve k points = points) := by
  by_cases h : points.length < 3
  · refine ⟨length_convolve k points, ?_, fun _ => by unfold convolve; simp [h]⟩
    intro i
    have he : convolve k points = points := by unfold convolve; simp [h]
    rw [he]
    exact ⟨rfl, rfl, rfl, rfl, rfl, rfl⟩
  · have he : convolve k points = points.mapIdx (fun i p =>
        { p with radius := ∑ j ∈ Finset.range k.size,
            (points.map (fun q => q.radius)).getD (convolveIndex points.length k.halfSize i j) 0 *
              k.weights.getD j 0 }) := by
      unfold convolve
      simp [h]
    refine ⟨length_convolve k points, ?_, fun hlt => absurd hlt h⟩
    intro i
    by_cases hi : i < points.length
    · rw [he, getD_mapIdx _ _ _ _ hi]
      exact ⟨rfl, rfl, rfl, rfl, rfl, rfl⟩
    · have h1 : (convolve k points).getD i dcp = dcp :=
        List.getD_eq_default _ _ (by rw [length_convolve]; omega)
      have h2 : points.getD i dcp = dcp := List.getD_eq_default _ _ (by omega)
      rw [h1, h2]
      exact ⟨rfl, rfl, rfl, rfl, rfl, rfl⟩

/-- Witness for C9: the degenerate branch instantiated at a concrete
2-point list and the shipped kernel size, via the main theorem. -/
theorem convolve_writes_only_radius_witness :
    ([⟨1, 2, 3, 4, 5, 6, 7⟩, ⟨8, 9, 10, 11, 12, 13, 14⟩] : List ControlPoint).length < 3 ∧
    convolve (mkGaussianKernel 5 (fun _ => 1)) [⟨1, 2, 3, 4, 5, 6, 7⟩, ⟨8, 9, 10, 11, 12, 13, 14⟩] =
      [⟨1, 2, 3, 4, 5, 6, 7⟩, ⟨8, 9, 10, 11, 12, 13, 14⟩] := by
  refine ⟨by norm_num, ?_⟩
  exact (convolve_writes_only_radius (mkGaussianKernel 5 (fun _ => 1))
    [⟨1, 2, 3, 4, 5, 6, 7⟩, ⟨8, 9, 10, 11, 12, 13, 14⟩]).2.2 (by norm_num)

/-- Claim C10: `BlobPhysics.getBlobs` with a nonempty palette leaves the
stored blob list untouched and returns fresh per-index spread copies whose
color is `palette[i % palette.length]`; without a palette it returns the
stored list itself. -/
theorem getBlobs_recolor_frame (blobs : List PBlob) (colors : List String)
    (hc : colors ≠ []) :
    (getBlobs blobs (some colors)).1 = blobs ∧
    (getBlobs blobs (some colors)).2.length = blobs.length ∧
    (∀ i : ℕ, i < blobs.length →
      (getBlobs blobs (some colors)).2.getD i dpb =
        { blobs.getD i dpb with color := colors.getD (i % colors.length) (blobs.getD i dpb).color }) ∧
    getBlobs blobs none = (blobs, blobs) := by
  have hlen : 0 < colors.length := List.length_pos_of_ne_nil hc
  refine ⟨by simp [getBlobs, hlen], by simp [getBlobs, hlen], ?_, rfl⟩
  intro i hi
  simp only [getBlobs, if_pos hlen]
  exact getD_mapIdx blobs _ i dpb hi

/-- Witness for C10 at two blobs and a one-color palette. -/
theorem getBlobs_recolor_frame_witness :
    (["red"] : List String) ≠ [] ∧
    (getBlobs [dpb, { dpb with size := 3 }] (some ["red"])).1 = [dpb, { dpb with size := 3 }] ∧
    (getBlobs [dpb, { dpb with size := 3 }] (some ["red"])).2.length =
      ([dpb, { dpb with size := 3 }] : List PBlob).length ∧
    (∀ i : ℕ, i < ([dpb, { dpb with size := 3 }] : List PBlob).length →
      (getBlobs [dpb, { dpb with size := 3 }] (some ["red"])).2.getD i dpb =
        { ([dpb, { dpb with size := 3 }] : List PBlob).getD i dpb with
            color := (["red"] : List String).getD (i % (["red"] : List String).length)
              (([dpb, { dpb with size := 3 }] : List PBlob).getD i dpb).color }) ∧
    getBlobs [dpb, { dpb with size := 3 }] none =
      ([dpb, { dpb with size := 3 }], [dpb, { dpb with size := 3 }]) := by
  refine ⟨by simp, ?_⟩
  exact getBlobs_recolor_frame [dpb, { dpb with size := 3 }] ["red"] (by simp)

/-- Counterexample for C6: on the degenerate 2-element input the two entry
points disagree — `convolve` leaves the radii `[0, 1]` untouched (its
`n < 3` guard), while `convolveArray`, which has no such guard, convolves
them to `[2/5, 3/5]` (uniform-weight kernel shown; any positive weight
profile disagrees likewise). -/
theorem convolveArray_degenerate_mismatch :
    (convolve (mkGaussianKernel 5 (fun _ => 1))
        [⟨0, 0, 0, 0, 0, 0, 0⟩, ⟨1, 0, 0, 0, 0, 0, 0⟩]).map (fun p => p.radius) = [0, 1] ∧
    convolveArray (mkGaussianKernel 5 (fun _ => 1)) [0, 1] 2 = [2/5, 3/5] := by
  constructor
  · unfold convolve
    norm_num
  · unfold convolveArray mkGaussianKernel computeWeights convolveIndex
    norm_num [List.range_succ, Finset.sum_range_succ]
    norm_num [Int.tmod]

/-- Claim C6 as amended: for at least 3 points, `convolveArray` on the
radius buffer of a point list computes exactly the radii `convolve`
produces on the point list (the two entry points run the same
accumulation); the degenerate `< 3` behaviors differ, as the
counterexample shows. -/
theorem convolveArray_eq_convolve (k : GaussianKernel) (points : List ControlPoint)
    (h3 : 3 ≤ points.length) :
    convolveArray k (points.map (fun p => p.radius)) points.length =
      (convolve k points).map (fun p => p.radius) := by
  have hn : ¬ points.length < 3 := by omega
  unfold convolve convolveArray
  simp only [if_neg hn]
  apply List.ext_getElem
  · simp
  · intro i h1 h2
    simp [List.getElem_mapIdx]

/-- Witness for C6 at a concrete 3-point list and the uniform-weight
5-tap kernel. -/
theorem convolveArray_eq_convolve_witness :
    3 ≤ ([⟨1, 0, 0, 0, 0, 0, 0⟩, ⟨2, 0, 0, 0, 0, 0, 0⟩, ⟨3, 0, 0, 0, 0, 0, 0⟩] :
        List ControlPoint).length ∧
    convolveArray (mkGaussianKernel 5 (fun _ => 1))
        (([⟨1, 0, 0, 0, 0, 0, 0⟩, ⟨2, 0, 0, 0, 0, 0, 0⟩, ⟨3, 0, 0, 0, 0, 0, 0⟩] :
          List ControlPoint).map (fun p => p.radius)) 3 =
      (convolve (mkGaussianKernel 5 (fun _ => 1))
        [⟨1, 0, 0, 0, 0, 0, 0⟩, ⟨2, 0, 0, 0, 0, 0, 0⟩, ⟨3, 0, 0, 0, 0, 0, 0⟩]).map
          (fun p => p.radius) := by
  refine ⟨by norm_num, ?_⟩
  exact convolveArray_eq_convolve (mkGaussianKernel 5 (fun _ => 1))
    [⟨1, 0, 0, 0, 0, 0, 0⟩, ⟨2, 0, 0, 0, 0, 0, 0⟩, ⟨3, 0, 0, 0, 0, 0, 0⟩] (by norm_num)

/-! ## SpatialHash query lemmas -/

theorem mem_cellOffsets {cellRadius : ℤ} (hcr : 0 ≤ cellRadius) (d : ℤ) :
    d ∈ cellOffsets cellRadius ↔ -cellRadius ≤ d ∧ d ≤ cellRadius := by
  unfold cellOffsets
  simp only [List.mem_map, List.mem_range]
  constructor
  · rintro ⟨i, hi, rfl⟩
    omega
  · intro ⟨h1, h2⟩
    refine ⟨(d + cellRadius).toNat, by omega, by omega⟩

theorem cellOffsets_nodup (cellRadius : ℤ) : (cellOffsets cellRadius).Nodup := by
  unfold cellOffsets
  refine List.Nodup.map ?_ (List.nodup_range _)
  intro a b h
  have h1 : -cellRadius + (a : ℤ) = -cellRadius + (b : ℤ) := h
  omega

theorem mem_cellList {cellSize : ℚ} {blobs : List HBlob} {key : ℤ × ℤ} {b : HBlob} :
    b ∈ cellList cellSize blobs key ↔ b ∈ blobs ∧ hashKey cellSize b = key := by
  unfold cellList
  simp

theorem cellList_nodup {cellSize : ℚ} {blobs : List HBlob} (h : blobs.Nodup)
    (key : ℤ × ℤ) : (cellList cellSize blobs key).Nodup := h.filter _

theorem floor_div_bounds {s u x r : ℚ} (hs : 0 < s) (h : |u - x| < r) :
    ⌊x / s⌋ - ⌈r / s⌉ ≤ ⌊u / s⌋ ∧ ⌊u / s⌋ ≤ ⌊x / s⌋ + ⌈r / s⌉ := by
  have h0 : r / s * s = r := div_mul_cancel₀ r (ne_of_gt hs)
  have h1 : r / s ≤ (⌈r / s⌉ : ℚ) := Int.le_ceil _
  have hcr : r ≤ (⌈r / s⌉ : ℚ) * s := by nlinarith
  have habs := abs_lt.mp h
  have hes : ∀ c : ℚ, (x - c * s) / s = x / s - c := by
    intro c
    rw [sub_div, mul_div_cancel_right₀ _ (ne_of_gt hs)]
  have hes2 : ∀ c : ℚ, (x + c * s) / s = x / s + c := by
    intro c
    rw [add_div, mul_div_cancel_right₀ _ (ne_of_gt hs)]
  constructor
  · have h2 : x / s - (⌈r / s⌉ : ℚ) ≤ u / s := by
      rw [← hes]
      exact (div_le_div_iff_of_pos_right hs).mpr (by linarith)
    calc ⌊x / s⌋ - ⌈r / s⌉ = ⌊x / s - (⌈r / s⌉ : ℚ)⌋ := (Int.floor_sub_int _ _).symm
    _ ≤ ⌊u / s⌋ := Int.floor_le_floor h2
  · have h2 : u / s ≤ x / s + (⌈r / s⌉ : ℚ) := by
      rw [← hes2]
      exact (div_le_div_iff_of_pos_right hs).mpr (by linarith)
    calc ⌊u / s⌋ ≤ ⌊x / s + (⌈r / s⌉ : ℚ)⌋ := Int.floor_le_floor h2
    _ = ⌊x / s⌋ + ⌈r / s⌉ := Int.floor_add_int _ _

theorem abs_lt_of_blobDist2_lt {x y r : ℚ} {b : HBlob} (hr : 0 ≤ r)
    (h : blobDist2 x y b < r * r) :
    |b.currentX - x| < r ∧ |b.currentY - y| < r := by
  unfold blobDist2 at h
  constructor
  · rw [abs_lt]
    constructor
    · nlinarith [mul_self_nonneg (b.currentY - y), mul_self_nonneg (b.currentX - x + r)]
    · nlinarith [mul_self_nonneg (b.currentY - y), mul_self_nonneg (b.currentX - x - r)]
  · rw [abs_lt]
    constructor
    · nlinarith [mul_self_nonneg (b.currentX - x), mul_self_nonneg (b.currentY - y + r)]
    · nlinarith [mul_self_nonneg (b.currentX - x), mul_self_nonneg (b.currentY - y - r)]

theorem mem_query_iff {cellSize : ℚ} {blobs : List HBlob} {x y radius : ℚ}
    {excludeBlob : Option HBlob} {b : HBlob} :
    b ∈ query cellSize blobs x y radius excludeBlob ↔
      ∃ dx ∈ cellOffsets ⌈radius / cellSize⌉, ∃ dy ∈ cellOffsets ⌈radius / cellSize⌉,
        b ∈ blobs ∧ hashKey cellSize b = (⌊x / cellSize⌋ + dx, ⌊y / cellSize⌋ + dy) ∧
        excludeBlob ≠ some b ∧ blobDist2 x y b < radius * radius := by
  unfold query
  simp only [List.mem_flatMap, List.mem_filter, decide_eq_true_eq, mem_cellList]
  constructor
  · rintro ⟨dx, hdx, dy, hdy, ⟨⟨hb, hkey⟩, hex, hd⟩⟩
    exact ⟨dx, hdx, dy, hdy, hb, hkey, hex, hd⟩
  · rintro ⟨dx, hdx, dy, hdy, hb, hkey, hex, hd⟩
    exact ⟨dx, hdx, dy, hdy, ⟨⟨hb, hkey⟩, hex, hd⟩⟩

/-- Claim C1 as amended: for a positive cell size and a nonnegative query
radius, `SpatialHash.query` over the hash built by `rebuild` returns
exactly the set a brute-force pairwise distance scan returns (same
membership, and no duplicates when the indexed blobs are distinct); for a
negative radius the two sides can differ, as the counterexample shows. -/
theorem spatial_query_matches_bruteforce (cellSize : ℚ) (blobs : List HBlob)
    (x y radius : ℚ) (excludeBlob : Option HBlob)
    (hs : 0 < cellSize) (hr : 0 ≤ radius) :
    (∀ b, b ∈ query cellSize blobs x y radius excludeBlob ↔
      b ∈ bruteForceQuery blobs x y radius excludeBlob) ∧
    (blobs.Nodup → (query cellSize blobs x y radius excludeBlob).Nodup ∧
      (bruteForceQuery blobs x y radius excludeBlob).Nodup) := by
  have hcr0 : (0 : ℤ) ≤ ⌈radius / cellSize⌉ := Int.ceil_nonneg (div_nonneg hr hs.le)
  constructor
  · intro b
    rw [mem_query_iff]
    unfold bruteForceQuery
    simp only [List.mem_filter, decide_eq_true_eq]
    constructor
    · rintro ⟨dx, _, dy, _, hb, _, hex, hd⟩
      exact ⟨hb, hex, hd⟩
    · rintro ⟨hb, hex, hd⟩
      obtain ⟨habsx, habsy⟩ := abs_lt_of_blobDist2_lt hr hd
      obtain ⟨hx1, hx2⟩ := floor_div_bounds hs habsx
      obtain ⟨hy1, hy2⟩ := floor_div_bounds hs habsy
      refine ⟨⌊b.currentX / cellSize⌋ - ⌊x / cellSize⌋,
        (mem_cellOffsets hcr0 _).mpr (by omega),
        ⌊b.currentY / cellSize⌋ - ⌊y / cellSize⌋,
        (mem_cellOffsets hcr0 _).mpr (by omega), hb, ?_, hex, hd⟩
      unfold hashKey
      simp only [Prod.mk.injEq]
      omega
  · intro hnd
    constructor
    · unfold query
      refine List.nodup_flatMap.mpr ⟨fun dx _ => ?_, ?_⟩
      · refine List.nodup_flatMap.mpr ⟨fun dy _ => (cellList_nodup hnd _).filter _, ?_⟩
        refine (cellOffsets_nodup _).imp ?_
        intro dy1 dy2 hne
        intro a ha1 ha2
        have h1 := (mem_cellList.mp (List.mem_of_mem_filter ha1)).2
        have h2 := (mem_cellList.mp (List.mem_of_mem_filter ha2)).2
        rw [h1] at h2
        exact hne (by injection h2 with ha hb; omega)
      · refine (cellOffsets_nodup _).imp ?_
        intro dx1 dx2 hne
        intro a ha1 ha2
        obtain ⟨dy1, _, ha1⟩ := List.mem_flatMap.mp ha1
        obtain ⟨dy2, _, ha2⟩ := List.mem_flatMap.mp ha2
        have h1 := (mem_cellList.mp (List.mem_of_mem_filter ha1)).2
        have h2 := (mem_cellList.mp (List.mem_of_mem_filter ha2)).2
        rw [h1] at h2
        exact hne (by injection h2 with ha hb; omega)
    · exact hnd.filter _

/-- Witness for C1 at the default cell size 50, radius 10 and a two-blob
index, instantiated at the first blob. -/
theorem spatial_query_matches_bruteforce_witness :
    (0 : ℚ) < 50 ∧ (0 : ℚ) ≤ 10 ∧
    ((⟨0, 3, 4⟩ : HBlob) ∈ query 50 [⟨0, 3, 4⟩, ⟨1, 90, 90⟩] 0 0 10 none ↔
      (⟨0, 3, 4⟩ : HBlob) ∈ bruteForceQuery [⟨0, 3, 4⟩, ⟨1, 90, 90⟩] 0 0 10 none) :=
  ⟨by norm_num, by norm_num,
    (spatial_query_matches_bruteforce 50 [⟨0, 3, 4⟩, ⟨1, 90, 90⟩] 0 0 10 none
      (by norm_num) (by norm_num)).1 ⟨0, 3, 4⟩⟩

/-- Counterexample for C1 as frozen: at the (degenerate) negative radius
-60 the brute-force scan still matches blobs (`dist² < r²` holds since
`r² = 3600`), but `query` visits no cells because `ceil(-60/50) = -1`
empties both loop ranges, so the two result sets differ. -/
theorem spatial_query_negative_radius_mismatch :
    bruteForceQuery [⟨0, 10, 0⟩] 0 0 (-60) none = [⟨0, 10, 0⟩] ∧
    query 50 [⟨0, 10, 0⟩] 0 0 (-60) none = [] := by
  constructor
  · unfold bruteForceQuery blobDist2
    norm_num
    simp
  · have hcr : (⌈(-60 : ℚ) / 50⌉ : ℤ) = -1 := by norm_num [Int.ceil_eq_iff]
    have hoff : cellOffsets (-1) = [] := by
      unfold cellOffsets
      norm_num
    unfold query
    simp only [hcr, hoff, List.flatMap_nil]

/-! ## getAllPairs lemmas -/

theorem mem_forwardPairs {l : List HBlob} {p : HBlob × HBlob}
    (h : p ∈ forwardPairs l) : p.1 ∈ l ∧ p.2 ∈ l := by
  induction l with
  | nil => simp [forwardPairs] at h
  | cons b bs ih =>
    rw [forwardPairs] at h
    rcases List.mem_append.mp h with h1 | h2
    · obtain ⟨c, hc, rfl⟩ := List.mem_map.mp h1
      exact ⟨List.mem_cons_self b bs, List.mem_cons_of_mem _ hc⟩
    · obtain ⟨h3, h4⟩ := ih h2
      exact ⟨List.mem_cons_of_mem _ h3, List.mem_cons_of_mem _ h4⟩

theorem forwardPairs_ne {l : List HBlob} (hnd : l.Nodup) :
    ∀ p ∈ forwardPairs l, p.1 ≠ p.2 := by
  induction l with
  | nil => intro p hp; simp [forwardPairs] at hp
  | cons b bs ih =>
    intro p hp
    rw [forwardPairs] at hp
    obtain ⟨hb, hbs⟩ := List.nodup_cons.mp hnd
    rcases List.mem_append.mp hp with h1 | h2
    · obtain ⟨c, hc, rfl⟩ := List.mem_map.mp h1
      intro he
      have he2 : b = c := he
      exact hb (by rw [he2]; exact hc)
    · exact ih hbs p h2

theorem forwardPairs_sym2_nodup {l : List HBlob} (hnd : l.Nodup) :
    ((forwardPairs l).map (fun p => s(p.1, p.2))).Nodup := by
  induction l with
  | nil => simp [forwardPairs]
  | cons b bs ih =>
    rw [forwardPairs, List.map_append]
    obtain ⟨hb, hbs⟩ := List.nodup_cons.mp hnd
    refine List.Nodup.append ?_ (ih hbs) ?_
    · rw [List.map_map]
      refine hbs.map_on ?_
      intro c1 hc1 c2 hc2 he
      simp only [Function.comp] at he
      rcases Sym2.eq_iff.mp he with ⟨_, h⟩ | ⟨h1, h2⟩
      · exact h
      · exact absurd (h1 ▸ hc2) hb
    · intro z hz1 hz2
      rw [List.map_map] at hz1
      obtain ⟨c, hc, rfl⟩ := List.mem_map.mp hz1
      obtain ⟨p, hp, he⟩ := List.mem_map.mp hz2
      obtain ⟨hp1, hp2⟩ := mem_forwardPairs hp
      simp only [Function.comp] at he
      rcases Sym2.eq_iff.mp he.symm with ⟨h1, _⟩ | ⟨h2, _⟩
      · exact hb (by rw [h1]; exact hp1)
      · exact hb (by rw [h2]; exact hp2)

theorem hash_eq_of_mem_prod {cellSize : ℚ} {blobs : List HBlob} {k k' : ℤ × ℤ}
    {p : HBlob × HBlob} (h : p ∈ cellList cellSize blobs k ×ˢ cellList cellSize blobs k') :
    hashKey cellSize p.1 = k ∧ hashKey cellSize p.2 = k' := by
  obtain ⟨h1, h2⟩ := List.mem_product.mp h
  exact ⟨(mem_cellList.mp h1).2, (mem_cellList.mp h2).2⟩

theorem prod_sym2_nodup {cellSize : ℚ} {blobs : List HBlob} (hnd : blobs.Nodup)
    {k k' : ℤ × ℤ} (hkk : k ≠ k') :
    ((cellList cellSize blobs k ×ˢ cellList cellSize blobs k').map
      (fun p => s(p.1, p.2))).Nodup := by
  refine List.Nodup.map_on ?_ ((cellList_nodup hnd k).product (cellList_nodup hnd k'))
  intro p1 hp1 p2 hp2 he
  obtain ⟨ha1, hb1⟩ := hash_eq_of_mem_prod hp1
  obtain ⟨ha2, hb2⟩ := hash_eq_of_mem_prod hp2
  rcases Sym2.eq_iff.mp he with ⟨h1, h2⟩ | ⟨h1, h2⟩
  · exact Prod.ext h1 h2
  · exact absurd (show k = k' by rw [← ha1, h1]; exact hb2) hkk

theorem neighborOffsets_ne_zero : ∀ o ∈ neighborOffsets, o.1 ≠ 0 ∨ o.2 ≠ 0 := by decide

theorem neighborOffsets_sum_ne :
    ∀ o1 ∈ neighborOffsets, ∀ o2 ∈ neighborOffsets, o1.1 + o2.1 ≠ 0 ∨ o1.2 + o2.2 ≠ 0 := by
  decide

theorem neighborOffsets_nodup : neighborOffsets.Nodup := by decide

theorem getAllPairs_eq (cellSize : ℚ) (blobs : List HBlob) (r : ℚ) :
    getAllPairs cellSize blobs r =
      (occupiedKeys cellSize blobs).flatMap (fun key =>
        (forwardPairs (cellList cellSize blobs key)).filter
            (fun p => pairDist2 p < r * r) ++
          neighborOffsets.flatMap (fun o =>
            (cellList cellSize blobs key ×ˢ
              cellList cellSize blobs (key.1 + o.1, key.2 + o.2)).filter
              (fun p => pairDist2 p < r * r))) := rfl

theorem block_endpoint_hash {cellSize : ℚ} {blobs : List HBlob} {r2 : ℚ} {k : ℤ × ℤ}
    {z : Sym2 HBlob}
    (hz : z ∈ ((forwardPairs (cellList cellSize blobs k)).filter
        (fun p => pairDist2 p < r2) ++
      neighborOffsets.flatMap (fun o =>
        (cellList cellSize blobs k ×ˢ
          cellList cellSize blobs (k.1 + o.1, k.2 + o.2)).filter
          (fun p => pairDist2 p < r2))).map (fun p => s(p.1, p.2))) :
    ∃ a b : HBlob, z = s(a, b) ∧ hashKey cellSize a = k ∧
      (hashKey cellSize b = k ∨
        ∃ o ∈ neighborOffsets, hashKey cellSize b = (k.1 + o.1, k.2 + o.2)) := by
  obtain ⟨p, hp, he⟩ := List.mem_map.mp hz
  rcases List.mem_append.mp hp with h1 | h2
  · have hfp := mem_forwardPairs (List.mem_of_mem_filter h1)
    exact ⟨p.1, p.2, he.symm, (mem_cellList.mp hfp.1).2, Or.inl (mem_cellList.mp hfp.2).2⟩
  · obtain ⟨o, ho, h3⟩ := List.mem_flatMap.mp h2
    have hh := hash_eq_of_mem_prod (List.mem_of_mem_filter h3)
    exact ⟨p.1, p.2, he.symm, hh.1, Or.inr ⟨o, ho, hh.2⟩⟩

/-- Claim C5: over any set of distinct indexed blobs and any interaction
radius, `SpatialHash.getAllPairs` never returns a pair whose two
components are the same blob, and never returns the same unordered pair
of blobs (as a `Sym2`) more than once. -/
theorem getAllPairs_no_self_no_dup (cellSize : ℚ) (blobs : List HBlob)
    (interactionRadius : ℚ) (hnd : blobs.Nodup) :
    (∀ p ∈ getAllPairs cellSize blobs interactionRadius, p.1 ≠ p.2) ∧
    ((getAllPairs cellSize blobs interactionRadius).map (fun p => s(p.1, p.2))).Nodup := by
  constructor
  · intro p hp
    rw [getAllPairs_eq] at hp
    obtain ⟨k, hk, hp⟩ := List.mem_flatMap.mp hp
    rcases List.mem_append.mp hp with h1 | h2
    · exact forwardPairs_ne (cellList_nodup hnd k) p (List.mem_of_mem_filter h1)
    · obtain ⟨o, ho, h3⟩ := List.mem_flatMap.mp h2
      have hh := hash_eq_of_mem_prod (List.mem_of_mem_filter h3)
      intro he
      have h4 := neighborOffsets_ne_zero o ho
      have h6 : hashKey cellSize p.2 = k := by rw [← he]; exact hh.1
      have h7 := hh.2
      rw [h6] at h7
      rw [Prod.ext_iff] at h7
      dsimp only at h7
      rcases h4 with h4 | h4 <;> omega
  · rw [getAllPairs_eq, List.map_flatMap]
    refine List.nodup_flatMap.mpr ⟨?_, ?_⟩
    · intro k hk
      rw [List.map_append]
      refine List.Nodup.append ?_ ?_ ?_
      · exact (forwardPairs_sym2_nodup (cellList_nodup hnd k)).sublist
          ((List.filter_sublist _).map _)
      · rw [List.map_flatMap]
        refine List.nodup_flatMap.mpr ⟨?_, ?_⟩
        · intro o ho
          have h4 := neighborOffsets_ne_zero o ho
          have hne : k ≠ (k.1 + o.1, k.2 + o.2) := by
            intro he
            rw [Prod.ext_iff] at he
            dsimp only at he
            rcases h4 with h4 | h4 <;> omega
          exact (prod_sym2_nodup hnd hne).sublist ((List.filter_sublist _).map _)
        · refine List.Pairwise.imp_of_mem ?_ neighborOffsets_nodup
          intro o1 o2 ho1 ho2 hne z hz1 hz2
          obtain ⟨p, hp, hpe⟩ := List.mem_map.mp hz1
          obtain ⟨p', hp', he⟩ := List.mem_map.mp hz2
          have h1 := hash_eq_of_mem_prod (List.mem_of_mem_filter hp)
          have h2 := hash_eq_of_mem_prod (List.mem_of_mem_filter hp')
          rw [← hpe] at he
          have h4 := neighborOffsets_ne_zero o1 ho1
          rcases Sym2.eq_iff.mp he with ⟨ha, hb⟩ | ⟨ha, hb⟩
          · have e2 := h2.2
            rw [hb] at e2
            rw [h1.2] at e2
            apply hne
            rw [Prod.ext_iff] at e2
            dsimp only at e2
            exact Prod.ext (by omega) (by omega)
          · have e2 := h2.1
            rw [ha] at e2
            have e1 := h1.2
            rw [e2] at e1
            rw [Prod.ext_iff] at e1
            dsimp only at e1
            rcases h4 with h4 | h4 <;> omega
      · intro z hz1 hz2
        obtain ⟨p, hp, hpe⟩ := List.mem_map.mp hz1
        rw [List.map_flatMap] at hz2
        obtain ⟨o, ho, hz3⟩ := List.mem_flatMap.mp hz2
        obtain ⟨p', hp', he⟩ := List.mem_map.mp hz3
        have hfp := mem_forwardPairs (List.mem_of_mem_filter hp)
        have hk1 : hashKey cellSize p.1 = k := (mem_cellList.mp hfp.1).2
        have hk2 : hashKey cellSize p.2 = k := (mem_cellList.mp hfp.2).2
        have h2 := hash_eq_of_mem_prod (List.mem_of_mem_filter hp')
        have h3 := neighborOffsets_ne_zero o ho
        rw [← hpe] at he
        rcases Sym2.eq_iff.mp he with ⟨ha, hb⟩ | ⟨ha, hb⟩
        · have e2 := h2.2
          rw [hb, hk2] at e2
          rw [Prod.ext_iff] at e2
          dsimp only at e2
          rcases h3 with h3 | h3 <;> omega
        · have e2 := h2.2
          rw [hb, hk1] at e2
          rw [Prod.ext_iff] at e2
          dsimp only at e2
          rcases h3 with h3 | h3 <;> omega
    · have hkeys : (occupiedKeys cellSize blobs).Nodup := List.nodup_dedup _
      refine List.Pairwise.imp ?_ hkeys
      intro k1 k2 hne z hz1 hz2
      obtain ⟨a, b, rfl, hha, hhb⟩ := block_endpoint_hash hz1
      obtain ⟨c, d, he, hhc, hhd⟩ := block_endpoint_hash hz2
      rcases Sym2.eq_iff.mp he with ⟨ha2, hb2⟩ | ⟨ha2, hb2⟩
      · have e := hhc
        rw [← ha2, hha] at e
        exact hne e
      · rcases hhb with hb3 | ⟨o1, ho1, hb3⟩
        · have e := hhc
          rw [← hb2, hb3] at e
          exact hne e
        · rcases hhd with hd3 | ⟨o2, ho2, hd3⟩
          · have e := hd3
            rw [← ha2, hha] at e
            exact hne e
          · have e1 := hb3
            rw [hb2, hhc] at e1
            have e2 := hd3
            rw [← ha2, hha] at e2
            have e3 := neighborOffsets_sum_ne o1 ho1 o2 ho2
            rw [Prod.ext_iff] at e1 e2
            dsimp only at e1 e2
            rcases e3 with e3 | e3 <;> omega

/-- Witness for C5 at a concrete two-blob nodup index. -/
theorem getAllPairs_no_self_no_dup_witness :
    ([⟨0, 3, 4⟩, ⟨1, 5, 4⟩] : List HBlob).Nodup ∧
    (∀ p ∈ getAllPairs 50 [⟨0, 3, 4⟩, ⟨1, 5, 4⟩] 60, p.1 ≠ p.2) ∧
    ((getAllPairs 50 [⟨0, 3, 4⟩, ⟨1, 5, 4⟩] 60).map (fun p => s(p.1, p.2))).Nodup := by
  refine ⟨by decide, ?_, ?_⟩
  · exact (getAllPairs_no_self_no_dup 50 [⟨0, 3, 4⟩, ⟨1, 5, 4⟩] 60 (by decide)).1
  · exact (getAllPairs_no_self_no_dup 50 [⟨0, 3, 4⟩, ⟨1, 5, 4⟩] 60 (by decide)).2

/-! ## Gaussian kernel lemmas -/

theorem list_sum_eq_sum_getD (l : List ℚ) :
    l.sum = ∑ i ∈ Finset.range l.length, l.getD i 0 := by
  induction l with
  | nil => simp
  | cons a t ih =>
    rw [List.sum_cons, ih, List.length_cons, Finset.sum_range_succ']
    simp [add_comm]

theorem sum_map_list_range (n : ℕ) (f : ℕ → ℚ) :
    ((List.range n).map f).sum = ∑ i ∈ Finset.range n, f i := by
  induction n with
  | zero => simp
  | succ m ih =>
    rw [List.range_succ, List.map_append, List.sum_append, Finset.sum_range_succ, ih]
    simp

theorem sum_range_mod_shift (n : ℕ) (hn : 0 < n) (c : ℕ) (f : ℕ → ℚ) :
    ∑ i ∈ Finset.range n, f ((i + c) % n) = ∑ i ∈ Finset.range n, f i := by
  haveI : NeZero n := ⟨hn.ne'⟩
  rw [Finset.sum_range (fun i => f ((i + c) % n)), Finset.sum_range (fun i => f i)]
  have key : ∀ i : Fin n, f ((i.val + c) % n) = f ((i + (⟨c % n, Nat.mod_lt c hn⟩ : Fin n)).val) := by
    intro i
    congr 1
    rw [Fin.add_def]
    dsimp only
    rw [Nat.add_mod, Nat.mod_eq_of_lt i.isLt]
  rw [Finset.sum_congr rfl (fun i _ => key i)]
  exact Fintype.sum_equiv (Equiv.addRight (⟨c % n, Nat.mod_lt c hn⟩ : Fin n))
    (fun i => f ((i + (⟨c % n, Nat.mod_lt c hn⟩ : Fin n)).val)) (fun j => f j.val)
    (fun i => rfl)

theorem sum_map_div (l : List ℚ) (s : ℚ) :
    (l.map (fun w => w / s)).sum = l.sum / s := by
  induction l with
  | nil => simp
  | cons a t ih => rw [List.map_cons, List.sum_cons, List.sum_cons, ih, add_div]

theorem computeWeights_length (g : ℤ → ℚ) (size halfSize : ℕ) :
    (computeWeights g size halfSize).length = size := by
  unfold computeWeights
  rw [List.length_map, List.length_map, List.length_range]

theorem computeWeights_raw_sum_pos (g : ℤ → ℚ) (hg : ∀ z, 0 < g z) {size : ℕ}
    (hs : 0 < size) (halfSize : ℕ) :
    0 < ((List.range size).map (fun (i : ℕ) => g ((i : ℤ) - halfSize))).sum := by
  apply List.sum_pos
  · intro x hx
    obtain ⟨i, _, rfl⟩ := List.mem_map.mp hx
    exact hg _
  · intro h
    rw [List.map_eq_nil_iff, List.range_eq_nil] at h
    omega

theorem computeWeights_sum (g : ℤ → ℚ) (hg : ∀ z, 0 < g z) {size : ℕ}
    (hs : 0 < size) (halfSize : ℕ) :
    (computeWeights g size halfSize).sum = 1 := by
  unfold computeWeights
  rw [sum_map_div]
  exact div_self (ne_of_gt (computeWeights_raw_sum_pos g hg hs halfSize))

theorem computeWeights_nonneg (g : ℤ → ℚ) (hg : ∀ z, 0 < g z) (size halfSize : ℕ)
    (j : ℕ) : 0 ≤ (computeWeights g size halfSize).getD j 0 := by
  by_cases hj : j < size
  · rcases Nat.eq_zero_or_pos size with h0 | hs
    · omega
    · have hlen : j < (computeWeights g size halfSize).length := by
        rw [computeWeights_length]; exact hj
      rw [List.getD_eq_getElem _ _ hlen]
      unfold computeWeights
      simp only [List.getElem_map, List.getElem_range]
      exact le_of_lt (div_pos (hg _) (computeWeights_raw_sum_pos g hg hs halfSize))
  · rw [List.getD_eq_default]
    rw [computeWeights_length]
    omega

theorem convolveIndex_eq {n halfSize : ℕ} (hhalf : halfSize ≤ n) (i j : ℕ) :
    convolveIndex n halfSize i j = (i + (j + (n - halfSize))) % n := by
  unfold convolveIndex
  have h1 : ((i : ℤ) + j - halfSize + n) = ((i + (j + (n - halfSize)) : ℕ) : ℤ) := by
    push_cast
    omega
  rw [h1]
  rcases Nat.eq_zero_or_pos n with h0 | hn
  · subst h0
    simp only [Nat.cast_zero, Int.tmod_zero, Nat.mod_zero]
    omega
  · rw [Int.tmod_eq_emod (by positivity) (by positivity)]
    omega

theorem weighted_jensen_sq (s : Finset ℕ) (w y : ℕ → ℚ) (h0 : ∀ j ∈ s, 0 ≤ w j)
    (h1 : ∑ j ∈ s, w j = 1) :
    (∑ j ∈ s, w j * y j) ^ 2 ≤ ∑ j ∈ s, w j * y j ^ 2 := by
  have key : (0 : ℚ) ≤ ∑ j ∈ s, ∑ l ∈ s, w j * w l * (y j - y l) ^ 2 :=
    Finset.sum_nonneg fun j hj => Finset.sum_nonneg fun l hl =>
      mul_nonneg (mul_nonneg (h0 j hj) (h0 l hl)) (sq_nonneg _)
  have inner : ∀ j : ℕ, ∑ l ∈ s, w l * (y j - y l) ^ 2 =
      y j ^ 2 - 2 * y j * (∑ l ∈ s, w l * y l) + ∑ l ∈ s, w l * y l ^ 2 := by
    intro j
    have e1 : ∀ l ∈ s, w l * (y j - y l) ^ 2 =
        y j ^ 2 * w l - 2 * y j * (w l * y l) + w l * y l ^ 2 := by
      intro l _
      ring
    rw [Finset.sum_congr rfl e1, Finset.sum_add_distrib, Finset.sum_sub_distrib,
      ← Finset.mul_sum, ← Finset.mul_sum, h1]
    ring
  have expand : ∑ j ∈ s, ∑ l ∈ s, w j * w l * (y j - y l) ^ 2 =
      2 * (∑ j ∈ s, w j * y j ^ 2) - 2 * (∑ j ∈ s, w j * y j) ^ 2 := by
    calc ∑ j ∈ s, ∑ l ∈ s, w j * w l * (y j - y l) ^ 2
        = ∑ j ∈ s, w j * ∑ l ∈ s, w l * (y j - y l) ^ 2 := by
          refine Finset.sum_congr rfl fun j _ => ?_
          rw [Finset.mul_sum]
          refine Finset.sum_congr rfl fun l _ => ?_
          ring
      _ = ∑ j ∈ s, w j * (y j ^ 2 - 2 * y j * (∑ l ∈ s, w l * y l) + ∑ l ∈ s, w l * y l ^ 2) := by
          refine Finset.sum_congr rfl fun j _ => ?_
          rw [inner j]
      _ = ∑ j ∈ s, (w j * y j ^ 2 - 2 * (∑ l ∈ s, w l * y l) * (w j * y j) +
            (∑ l ∈ s, w l * y l ^ 2) * w j) := by
          refine Finset.sum_congr rfl fun j _ => ?_
          ring
      _ = (∑ j ∈ s, w j * y j ^ 2) - 2 * (∑ l ∈ s, w l * y l) * (∑ j ∈ s, w j * y j) +
            (∑ l ∈ s, w l * y l ^ 2) * (∑ j ∈ s, w j) := by
          rw [Finset.sum_add_distrib, Finset.sum_sub_distrib, ← Finset.mul_sum, ← Finset.mul_sum]
      _ = 2 * (∑ j ∈ s, w j * y j ^ 2) - 2 * (∑ j ∈ s, w j * y j) ^ 2 := by
          rw [h1]
          ring
  nlinarith [key, expand]

theorem getD_map_of_lt {α β : Type} (l : List α) (f : α → β) {i : ℕ}
    (h : i < l.length) (d : β) (d' : α) : (l.map f).getD i d = f (l.getD i d') := by
  have h2 : i < (l.map f).length := by simpa using h
  rw [List.getD_eq_getElem _ _ h2, List.getD_eq_getElem _ _ h, List.getElem_map]

theorem range_map_getD (n : ℕ) (f : ℕ → ℚ) {i : ℕ} (h : i < n) :
    ((List.range n).map f).getD i 0 = f i := by
  have h1 : i < (List.range n).length := by simpa using h
  rw [getD_map_of_lt _ _ h1 0 0, List.getD_eq_getElem _ _ h1, List.getElem_range]

theorem convolve_radii (k : GaussianKernel) (points : List ControlPoint)
    (h3 : ¬ points.length < 3) :
    (convolve k points).map (fun p => p.radius) =
      (List.range points.length).map (fun i => ∑ j ∈ Finset.range k.size,
        (points.map (fun p => p.radius)).getD
          (convolveIndex points.length k.halfSize i j) 0 * k.weights.getD j 0) := by
  unfold convolve
  simp only [if_neg h3]
  apply List.ext_getElem
  · simp
  · intro i h1 h2
    simp [List.getElem_mapIdx]

theorem conv_sum_eq (R W : List ℚ) (halfSize : ℕ) (hhalf : halfSize ≤ R.length)
    (h0 : 0 < R.length)
    (hW1 : ∑ j ∈ Finset.range W.length, W.getD j 0 = 1) :
    ((List.range R.length).map (fun i => ∑ j ∈ Finset.range W.length,
        R.getD (convolveIndex R.length halfSize i j) 0 * W.getD j 0)).sum = R.sum := by
  rw [sum_map_list_range, Finset.sum_comm]
  have step : ∀ j ∈ Finset.range W.length,
      ∑ i ∈ Finset.range R.length,
        R.getD (convolveIndex R.length halfSize i j) 0 * W.getD j 0 =
      R.sum * W.getD j 0 := by
    intro j _
    rw [← Finset.sum_mul]
    congr 1
    calc ∑ i ∈ Finset.range R.length, R.getD (convolveIndex R.length halfSize i j) 0
        = ∑ i ∈ Finset.range R.length,
            R.getD ((i + (j + (R.length - halfSize))) % R.length) 0 := by
          refine Finset.sum_congr rfl fun i _ => ?_
          rw [convolveIndex_eq hhalf]
      _ = ∑ i ∈ Finset.range R.length, R.getD i 0 :=
          sum_range_mod_shift R.length h0 (j + (R.length - halfSize)) (fun t => R.getD t 0)
      _ = R.sum := (list_sum_eq_sum_getD R).symm
  rw [Finset.sum_congr rfl step, ← Finset.mul_sum, hW1, mul_one]

theorem conv_sq_dev_le (R W : List ℚ) (halfSize : ℕ) (hhalf : halfSize ≤ R.length)
    (h0 : 0 < R.length) (hW0 : ∀ j, 0 ≤ W.getD j 0)
    (hW1 : ∑ j ∈ Finset.range W.length, W.getD j 0 = 1) (m : ℚ) :
    ∑ i ∈ Finset.range R.length, ((∑ j ∈ Finset.range W.length,
        R.getD (convolveIndex R.length halfSize i j) 0 * W.getD j 0) - m) ^ 2 ≤
      ∑ i ∈ Finset.range R.length, (R.getD i 0 - m) ^ 2 := by
  have pt : ∀ i, (∑ j ∈ Finset.range W.length,
      R.getD (convolveIndex R.length halfSize i j) 0 * W.getD j 0) - m =
      ∑ j ∈ Finset.range W.length,
        W.getD j 0 * (R.getD (convolveIndex R.length halfSize i j) 0 - m) := by
    intro i
    have e1 : ∀ j ∈ Finset.range W.length,
        W.getD j 0 * (R.getD (convolveIndex R.length halfSize i j) 0 - m) =
        R.getD (convolveIndex R.length halfSize i j) 0 * W.getD j 0 - m * W.getD j 0 := by
      intro j _
      ring
    rw [Finset.sum_congr rfl e1, Finset.sum_sub_distrib, ← Finset.mul_sum, hW1, mul_one]
  calc ∑ i ∈ Finset.range R.length, ((∑ j ∈ Finset.range W.length,
        R.getD (convolveIndex R.length halfSize i j) 0 * W.getD j 0) - m) ^ 2
      = ∑ i ∈ Finset.range R.length, (∑ j ∈ Finset.range W.length,
          W.getD j 0 * (R.getD (convolveIndex R.length halfSize i j) 0 - m)) ^ 2 := by
        refine Finset.sum_congr rfl fun i _ => ?_
        rw [pt i]
    _ ≤ ∑ i ∈ Finset.range R.length, ∑ j ∈ Finset.range W.length,
          W.getD j 0 * (R.getD (convolveIndex R.length halfSize i j) 0 - m) ^ 2 :=
        Finset.sum_le_sum fun i _ =>
          weighted_jensen_sq _ _ _ (fun j _ => hW0 j) hW1
    _ = ∑ j ∈ Finset.range W.length, ∑ i ∈ Finset.range R.length,
          W.getD j 0 * (R.getD (convolveIndex R.length halfSize i j) 0 - m) ^ 2 :=
        Finset.sum_comm
    _ = ∑ j ∈ Finset.range W.length,
          W.getD j 0 * ∑ i ∈ Finset.range R.length, (R.getD i 0 - m) ^ 2 := by
        refine Finset.sum_congr rfl fun j _ => ?_
        rw [Finset.mul_sum]
        calc ∑ i ∈ Finset.range R.length,
              W.getD j 0 * (R.getD (convolveIndex R.length halfSize i j) 0 - m) ^ 2
            = ∑ i ∈ Finset.range R.length,
              W.getD j 0 * (R.getD ((i + (j + (R.length - halfSize))) % R.length) 0 - m) ^ 2 := by
              refine Finset.sum_congr rfl fun i _ => ?_
              rw [convolveIndex_eq hhalf]
          _ = ∑ i ∈ Finset.range R.length, W.getD j 0 * (R.getD i 0 - m) ^ 2 :=
              sum_range_mod_shift R.length h0 (j + (R.length - halfSize))
                (fun t => W.getD j 0 * (R.getD t 0 - m) ^ 2)
    _ = ∑ i ∈ Finset.range R.length, (R.getD i 0 - m) ^ 2 := by
        rw [← Finset.sum_mul, hW1, one_mul]

theorem computeVariance_eq (L : List ℚ) (h : L.length ≠ 0) :
    computeVariance L =
      (∑ i ∈ Finset.range L.length, (L.getD i 0 - L.sum / L.length) ^ 2) / L.length := by
  unfold computeVariance
  rw [if_neg h]
  have e : (L.map (fun r => (r - L.sum / L.length) * (r - L.sum / L.length))).sum =
      ∑ i ∈ Finset.range L.length, (L.getD i 0 - L.sum / L.length) ^ 2 := by
    rw [list_sum_eq_sum_getD]
    simp only [List.length_map]
    refine Finset.sum_congr rfl fun i hi => ?_
    have h2 : i < L.length := Finset.mem_range.mp hi
    rw [getD_map_of_lt _ _ h2 0 0]
    ring
  show (L.map (fun r => (r - L.sum / L.length) * (r - L.sum / L.length))).sum /
      (L.length : ℚ) = _
  rw [e]

theorem computeVariance_nonneg (L : List ℚ) : 0 ≤ computeVariance L := by
  by_cases h : L.length = 0
  · unfold computeVariance
    rw [if_pos h]
  · rw [computeVariance_eq L h]
    apply div_nonneg ?_ (by positivity)
    exact Finset.sum_nonneg fun i _ => sq_nonneg _

/-- Claim C3: for every boundary point list of at least 3 points, applying
`GaussianKernel.convolve` (any kernel size, any positive weight profile
`g` standing for the Gaussian exponential, with the kernel's half-width
within the boundary length) yields radii whose population variance is at
most 1.01 times the input variance and whose mean differs from the input
mean by less than 0.01; in exact arithmetic the variance never increases
and the mean is preserved exactly. -/
theorem gaussian_smoothing_variance_mean (size : ℕ) (g : ℤ → ℚ) (hg : ∀ z, 0 < g z)
    (points : List ControlPoint) (h3 : 3 ≤ points.length)
    (hhalf : (mkGaussianKernel size g).halfSize ≤ points.length) :
    computeVariance ((convolve (mkGaussianKernel size g) points).map (fun p => p.radius)) ≤
      1.01 * computeVariance (points.map (fun p => p.radius)) ∧
    |listMean ((convolve (mkGaussianKernel size g) points).map (fun p => p.radius)) -
      listMean (points.map (fun p => p.radius))| < 0.01 := by
  set k := mkGaussianKernel size g with hk
  have hsize : 0 < k.size := by
    rw [hk]
    unfold mkGaussianKernel
    dsimp only
    split <;> omega
  have hWlen : k.weights.length = k.size := by
    rw [hk]
    unfold mkGaussianKernel
    dsimp only
    exact computeWeights_length g _ _
  have hW1 : ∑ j ∈ Finset.range k.weights.length, k.weights.getD j 0 = 1 := by
    rw [← list_sum_eq_sum_getD]
    rw [hk]
    unfold mkGaussianKernel
    dsimp only
    apply computeWeights_sum g hg
    split <;> omega
  have hW0 : ∀ j, 0 ≤ k.weights.getD j 0 := by
    intro j
    rw [hk]
    unfold mkGaussianKernel
    dsimp only
    exact computeWeights_nonneg g hg _ _ j
  set R := points.map (fun p => p.radius) with hR
  have hRlen : R.length = points.length := by
    rw [hR]
    exact List.length_map _ _
  have h0 : 0 < R.length := by omega
  have hhalf2 : k.halfSize ≤ R.length := by
    rw [hRlen]
    exact hhalf
  have hcr := convolve_radii k points (by omega)
  have hcr2 : (convolve k points).map (fun p => p.radius) =
      (List.range R.length).map (fun i => ∑ j ∈ Finset.range k.weights.length,
        R.getD (convolveIndex R.length k.halfSize i j) 0 * k.weights.getD j 0) := by
    rw [hcr, hRlen, hWlen]
  set out := (List.range R.length).map (fun i => ∑ j ∈ Finset.range k.weights.length,
      R.getD (convolveIndex R.length k.halfSize i j) 0 * k.weights.getD j 0) with hout
  have hsum : out.sum = R.sum := conv_sum_eq R k.weights k.halfSize hhalf2 h0 hW1
  have houtlen : out.length = R.length := by
    rw [hout]
    simp
  have hmean : listMean out = listMean R := by
    unfold listMean
    rw [hsum, houtlen]
  have hvar : computeVariance out ≤ computeVariance R := by
    rw [computeVariance_eq out (by omega), computeVariance_eq R (by omega)]
    rw [hsum, houtlen]
    refine (div_le_div_iff_of_pos_right (by exact_mod_cast h0)).mpr ?_
    have hterm : ∀ i ∈ Finset.range R.length,
        (out.getD i 0 - R.sum / (R.length : ℚ)) ^ 2 =
        ((∑ j ∈ Finset.range k.weights.length,
          R.getD (convolveIndex R.length k.halfSize i j) 0 * k.weights.getD j 0) -
          R.sum / (R.length : ℚ)) ^ 2 := by
      intro i hi
      rw [hout, range_map_getD _ _ (Finset.mem_range.mp hi)]
    rw [Finset.sum_congr rfl hterm]
    exact conv_sq_dev_le R k.weights k.halfSize hhalf2 h0 hW0 hW1 _
  refine ⟨?_, ?_⟩
  · rw [hcr2]
    have hRv := computeVariance_nonneg R
    linarith
  · rw [hcr2, hmean, sub_self, abs_zero]
    norm_num

/-- Witness for C3 at the shipped kernel shape (size 5) with a uniform
positive weight profile and a concrete 3-point boundary. -/
theorem gaussian_smoothing_variance_mean_witness :
    computeVariance ((convolve (mkGaussianKernel 5 (fun _ => 1))
        [⟨1, 0, 0, 0, 0, 0, 0⟩, ⟨2, 0, 0, 0, 0, 0, 0⟩, ⟨4, 0, 0, 0, 0, 0, 0⟩]).map
          (fun p => p.radius)) ≤
      1.01 * computeVariance (([⟨1, 0, 0, 0, 0, 0, 0⟩, ⟨2, 0, 0, 0, 0, 0, 0⟩,
        ⟨4, 0, 0, 0, 0, 0, 0⟩] : List ControlPoint).map (fun p => p.radius)) ∧
    |listMean ((convolve (mkGaussianKernel 5 (fun _ => 1))
        [⟨1, 0, 0, 0, 0, 0, 0⟩, ⟨2, 0, 0, 0, 0, 0, 0⟩, ⟨4, 0, 0, 0, 0, 0, 0⟩]).map
          (fun p => p.radius)) -
      listMean (([⟨1, 0, 0, 0, 0, 0, 0⟩, ⟨2, 0, 0, 0, 0, 0, 0⟩,
        ⟨4, 0, 0, 0, 0, 0, 0⟩] : List ControlPoint).map (fun p => p.radius))| < 0.01 :=
  gaussian_smoothing_variance_mean 5 (fun _ => 1) (fun _ => by norm_num)
    [⟨1, 0, 0, 0, 0, 0, 0⟩, ⟨2, 0, 0, 0, 0, 0, 0⟩, ⟨4, 0, 0, 0, 0, 0, 0⟩]
    (by norm_num) (by decide)

/-! ## Wall bouncing lemmas -/

theorem recordBounce_currentX (b : PBlob) (t rx ry rd : ℚ) :
    (recordBounce b t rx ry rd).currentX = b.currentX := rfl

theorem recordBounce_currentY (b : PBlob) (t rx ry rd : ℚ) :
    (recordBounce b t rx ry rd).currentY = b.currentY := rfl

theorem recordBounce_size (b : PBlob) (t rx ry rd : ℚ) :
    (recordBounce b t rx ry rd).size = b.size := rfl

theorem applyFriction_currentX (b : PBlob) : (applyFriction b).currentX = b.currentX := rfl

theorem applyFriction_currentY (b : PBlob) : (applyFriction b).currentY = b.currentY := rfl

theorem applyFriction_size (b : PBlob) : (applyFriction b).size = b.size := rfl

theorem handleWallBouncing_size (bounceDamping t : ℚ) (rnd : Fin 4 → ℚ × ℚ × ℚ)
    (b : PBlob) : (handleWallBouncing bounceDamping t rnd b).size = b.size := by
  unfold handleWallBouncing recordBounce
  dsimp only
  split_ifs <;> rfl

set_option maxHeartbeats 2000000 in
theorem handleWallBouncing_bounds (bounceDamping t : ℚ) (rnd : Fin 4 → ℚ × ℚ × ℚ)
    (b : PBlob) (h1 : b.size * 1.2 ≤ 90) :
    PHYSICS_MIN + b.size * 0.8 ≤ (handleWallBouncing bounceDamping t rnd b).currentX ∧
    (handleWallBouncing bounceDamping t rnd b).currentX ≤ PHYSICS_MAX - b.size * 0.8 ∧
    PHYSICS_MIN + b.size * 1.2 ≤ (handleWallBouncing bounceDamping t rnd b).currentY ∧
    (handleWallBouncing bounceDamping t rnd b).currentY ≤ PHYSICS_MAX - b.size * 1.2 := by
  unfold handleWallBouncing recordBounce PHYSICS_MIN PHYSICS_MAX
  dsimp only
  split_ifs <;>
    refine ⟨?_, ?_, ?_, ?_⟩ <;>
    dsimp only at * <;>
    linarith

theorem runTicks_size (bounceDamping : ℚ) (pre : ℕ → PBlob → PBlob) (times : ℕ → ℚ)
    (rnd : ℕ → Fin 4 → ℚ × ℚ × ℚ) (b0 : PBlob)
    (hpre : ∀ n b, (pre n b).size = b.size) :
    ∀ n, (runTicks bounceDamping pre times rnd n b0).size = b0.size := by
  intro n
  induction n with
  | zero => rfl
  | succ m ih =>
    rw [runTicks, applyFriction_size, handleWallBouncing_size, hpre, ih]

/-- Claim C7: whatever the earlier stages of a tick do to a blob (modelled
by the arbitrary per-tick map `pre`), after the wall-handling step of
every tick the blob's position lies in the fixed extended bounding box
`[PHYSICS_MIN + size*0.8, PHYSICS_MAX - size*0.8]` horizontally and
`[PHYSICS_MIN + size*1.2, PHYSICS_MAX - size*1.2]` vertically, for every
blob whose size satisfies the initializer's range (any `0 ≤ size` with
`size*1.2 ≤ 90`, which covers the created sizes 15-27), and this holds
after arbitrarily many ticks. -/
theorem blob_position_bounded (bounceDamping : ℚ) (pre : ℕ → PBlob → PBlob)
    (times : ℕ → ℚ) (rnd : ℕ → Fin 4 → ℚ × ℚ × ℚ) (b0 : PBlob)
    (hpre : ∀ n b, (pre n b).size = b.size)
    (h0 : 0 ≤ b0.size) (h1 : b0.size * 1.2 ≤ 90) :
    ∀ n, 1 ≤ n →
      (runTicks bounceDamping pre times rnd n b0).size = b0.size ∧
      PHYSICS_MIN + b0.size * 0.8 ≤ (runTicks bounceDamping pre times rnd n b0).currentX ∧
      (runTicks bounceDamping pre times rnd n b0).currentX ≤ PHYSICS_MAX - b0.size * 0.8 ∧
      PHYSICS_MIN + b0.size * 1.2 ≤ (runTicks bounceDamping pre times rnd n b0).currentY ∧
      (runTicks bounceDamping pre times rnd n b0).currentY ≤ PHYSICS_MAX - b0.size * 1.2 := by
  intro n hn
  obtain ⟨m, rfl⟩ : ∃ m, n = m + 1 := ⟨n - 1, by omega⟩
  have hsz := runTicks_size bounceDamping pre times rnd b0 hpre (m + 1)
  refine ⟨hsz, ?_⟩
  rw [runTicks]
  set c := pre m (runTicks bounceDamping pre times rnd m b0) with hc
  have hcs : c.size = b0.size := by
    rw [hc, hpre]
    exact runTicks_size bounceDamping pre times rnd b0 hpre m
  have hb := handleWallBouncing_bounds bounceDamping (times m) (rnd m) c
    (by rw [hcs]; exact h1)
  rw [applyFriction_currentX, applyFriction_currentY]
  rw [hcs] at hb
  exact hb

/-- Witness for C7: one tick of an identity pre-stage on a size-20 blob
that starts far outside the box is clamped into the box. -/
theorem blob_position_bounded_witness :
    (∀ n b, ((fun (_ : ℕ) (b : PBlob) => b) n b).size = b.size) ∧
    (0 : ℚ) ≤ (20 : ℚ) ∧ (20 : ℚ) * 1.2 ≤ 90 ∧
    (PHYSICS_MIN + (20 : ℚ) * 0.8 ≤
      (runTicks 0.7 (fun _ b => b) (fun _ => 0) (fun _ _ => (0, 0, 0)) 1
        ⟨300, -300, 1, 1, 20, 0, 0, 0, 0, ""⟩).currentX ∧
    (runTicks 0.7 (fun _ b => b) (fun _ => 0) (fun _ _ => (0, 0, 0)) 1
        ⟨300, -300, 1, 1, 20, 0, 0, 0, 0, ""⟩).currentX ≤ PHYSICS_MAX - (20 : ℚ) * 0.8 ∧
    PHYSICS_MIN + (20 : ℚ) * 1.2 ≤
      (runTicks 0.7 (fun _ b => b) (fun _ => 0) (fun _ _ => (0, 0, 0)) 1
        ⟨300, -300, 1, 1, 20, 0, 0, 0, 0, ""⟩).currentY ∧
    (runTicks 0.7 (fun _ b => b) (fun _ => 0) (fun _ _ => (0, 0, 0)) 1
        ⟨300, -300, 1, 1, 20, 0, 0, 0, 0, ""⟩).currentY ≤ PHYSICS_MAX - (20 : ℚ) * 1.2) := by
  refine ⟨fun _ _ => rfl, by norm_num, by norm_num, ?_⟩
  have h := blob_position_bounded 0.7 (fun _ b => b) (fun _ => 0) (fun _ _ => (0, 0, 0))
    ⟨300, -300, 1, 1, 20, 0, 0, 0, 0, ""⟩ (fun _ _ => rfl) (by norm_num) (by norm_num)
    1 (by norm_num)
  exact h.2

/-! ## Spring energy decay lemmas -/

theorem decayConfig_vals :
    decayConfig.springConstant = 2/25 ∧ decayConfig.dampingCoeff = 3/25 ∧
    decayConfig.couplingStrength = 0 ∧ decayConfig.surfaceTension = 0 ∧
    decayConfig.pressure = 1 ∧ decayConfig.maxDeformation = 3/10 ∧
    decayConfig.maxVelocity = 2 := by
  unfold decayConfig DEFAULT_SPRING_CONFIG
  norm_num

theorem totalForce_decay (p : ControlPoint) (v : ControlPointVelocity)
    (l r : ControlPoint) (e : ℚ) :
    totalForce decayConfig p v l r e =
      -(2/25) * (p.radius - p.baseRadius) - (3/25) * v.radialVelocity + e := by
  obtain ⟨h1, h2, h3, h4, h5, _, _⟩ := decayConfig_vals
  unfold totalForce
  rw [h1, h2, h3, h4, h5]
  ring

theorem updateControlPoint_decay_canon (p : ControlPoint) (v : ControlPointVelocity)
    (l r : ControlPoint) (e dt : ℚ) :
    updateControlPoint decayConfig p v l r e dt =
      updateControlPoint decayConfig p v dcp dcp e dt := by
  unfold updateControlPoint velocityAfterClamp
  rw [totalForce_decay, totalForce_decay]

theorem updateControlPoint_decay_eq (p : ControlPoint) (w : ControlPointVelocity)
    (l r : ControlPoint) (hb : p.baseRadius = 1)
    (hE : w.radialVelocity ^ 2 / 2 + (p.radius - 1) ^ 2 / 25 ≤ 1 / 800) :
    updateControlPoint decayConfig p w l r 0 0.016 =
      ({ p with radius := p.radius +
          ((3119/3125) * w.radialVelocity - (4/3125) * (p.radius - 1)) * 0.016 },
       { w with radialVelocity :=
          (3119/3125) * w.radialVelocity - (4/3125) * (p.radius - 1) }) := by
  obtain ⟨hk, hc, _, _, _, hD, hV⟩ := decayConfig_vals
  have hx2 : (p.radius - 1) ^ 2 ≤ 1/32 := by nlinarith [sq_nonneg w.radialVelocity]
  have hv2 : w.radialVelocity ^ 2 ≤ 1/400 := by nlinarith [sq_nonneg (p.radius - 1)]
  have hxlo : -(1/4 : ℚ) ≤ p.radius - 1 := by nlinarith
  have hxhi : p.radius - 1 ≤ (1/4 : ℚ) := by nlinarith
  have hvlo : -(1/20 : ℚ) ≤ w.radialVelocity := by nlinarith
  have hvhi : w.radialVelocity ≤ (1/20 : ℚ) := by nlinarith
  have h2a : (3119/3125) * w.radialVelocity - (4/3125) * (p.radius - 1) ≤ 2 := by nlinarith
  have h2b : -(2 : ℚ) ≤ (3119/3125) * w.radialVelocity - (4/3125) * (p.radius - 1) := by
    nlinarith
  have hveq : velocityAfterClamp decayConfig p w l r 0 0.016 =
      (3119/3125) * w.radialVelocity - (4/3125) * (p.radius - 1) := by
    unfold velocityAfterClamp
    rw [totalForce_decay, hb, hV]
    have he : w.radialVelocity +
        (-(2/25) * (p.radius - 1) - (3/25) * w.radialVelocity + 0) * 0.016 =
        (3119/3125) * w.radialVelocity - (4/3125) * (p.radius - 1) := by ring
    rw [he]
    dsimp only
    rw [min_eq_right h2a, max_eq_right h2b]
  unfold updateControlPoint
  rw [hveq]
  dsimp only
  rw [hb, hD]
  have hmin : (1 : ℚ) * (1 - 3/10) = 7/10 := by norm_num
  have hmax : (1 : ℚ) * (1 + 3/10) = 13/10 := by norm_num
  rw [hmin, hmax]
  have hr1lo : (7/10 : ℚ) <
      p.radius + ((3119/3125) * w.radialVelocity - (4/3125) * (p.radius - 1)) * 0.016 := by
    nlinarith
  have hr1hi : p.radius +
      ((3119/3125) * w.radialVelocity - (4/3125) * (p.radius - 1)) * 0.016 < (13/10 : ℚ) := by
    nlinarith
  rw [min_eq_right (le_of_lt hr1hi), max_eq_right (le_of_lt hr1lo)]
  rw [if_neg (by push_neg; exact ⟨ne_of_gt hr1lo, ne_of_lt hr1hi⟩)]

theorem decay_energy_step (x v : ℚ) :
    ((3119/3125) * v - (4/3125) * x) ^ 2 / 2 +
      (x + ((3119/3125) * v - (4/3125) * x) * 0.016) ^ 2 / 25 +
      (1/10000000) * (x ^ 2 + v ^ 2) ≤
    v ^ 2 / 2 + x ^ 2 / 25 := by
  nlinarith [sq_nonneg (x + v), sq_nonneg (x - v), sq_nonneg x, sq_nonneg v]

theorem springStep_three (p1 p2 p3 : ControlPoint) (w1 w2 w3 : ControlPointVelocity) :
    springStep decayConfig 0.016 ([p1, p2, p3], [w1, w2, w3]) =
      ([(updateControlPoint decayConfig p1 w1 dcp dcp 0 0.016).1,
        (updateControlPoint decayConfig p2 w2 dcp dcp 0 0.016).1,
        (updateControlPoint decayConfig p3 w3 dcp dcp 0 0.016).1],
       [(updateControlPoint decayConfig p1 w1 dcp dcp 0 0.016).2,
        (updateControlPoint decayConfig p2 w2 dcp dcp 0 0.016).2,
        (updateControlPoint decayConfig p3 w3 dcp dcp 0 0.016).2]) := by
  unfold springStep updateAllControlPoints
  have h3 : List.range 3 = [0, 1, 2] := rfl
  simp only [List.length_cons, List.length_nil, h3]
  norm_num [List.foldl_cons, List.foldl_nil, List.getD_cons_zero, List.getD_cons_succ,
    List.getD_nil, List.set_cons_zero, List.set_cons_succ]
  rw [updateControlPoint_decay_canon p1 w1 p3 p2,
    updateControlPoint_decay_canon p2 w2 _ p3,
    updateControlPoint_decay_canon p3 w3 _ _]
  simp

theorem totalEnergy_three (cfgk : SpringConfig) (hk : cfgk.springConstant = 2/25)
    (p1 p2 p3 : ControlPoint) (w1 w2 w3 : ControlPointVelocity) :
    totalEnergy cfgk ([p1, p2, p3], [w1, w2, w3]) =
      (w1.radialVelocity ^ 2 / 2 + (p1.radius - p1.baseRadius) ^ 2 / 25) +
      (w2.radialVelocity ^ 2 / 2 + (p2.radius - p2.baseRadius) ^ 2 / 25) +
      (w3.radialVelocity ^ 2 / 2 + (p3.radius - p3.baseRadius) ^ 2 / 25) := by
  unfold totalEnergy getKineticEnergy getPotentialEnergy
  simp only [List.map_cons, List.map_nil, List.sum_cons, List.sum_nil, hk]
  ring

set_option maxHeartbeats 4000000 in
theorem decay_inv_step (s : List ControlPoint × List ControlPointVelocity)
    (h : decayInv s) :
    decayInv (springStep decayConfig 0.016 s) ∧
    totalEnergy decayConfig (springStep decayConfig 0.016 s) ≤ totalEnergy decayConfig s ∧
    (0 < totalEnergy decayConfig s →
      totalEnergy decayConfig (springStep decayConfig 0.016 s) < totalEnergy decayConfig s) := by
  obtain ⟨p1, p2, p3, w1, w2, w3, rfl, hb1, hb2, hb3, hE1, hE2, hE3⟩ := h
  have hkval : decayConfig.springConstant = 2/25 := decayConfig_vals.1
  rw [springStep_three]
  rw [updateControlPoint_decay_eq p1 w1 dcp dcp hb1 hE1,
    updateControlPoint_decay_eq p2 w2 dcp dcp hb2 hE2,
    updateControlPoint_decay_eq p3 w3 dcp dcp hb3 hE3]
  dsimp only
  have hq1 := decay_energy_step (p1.radius - 1) w1.radialVelocity
  have hq2 := decay_energy_step (p2.radius - 1) w2.radialVelocity
  have hq3 := decay_energy_step (p3.radius - 1) w3.radialVelocity
  have hTold : totalEnergy decayConfig ([p1, p2, p3], [w1, w2, w3]) =
      (w1.radialVelocity ^ 2 / 2 + (p1.radius - 1) ^ 2 / 25) +
      (w2.radialVelocity ^ 2 / 2 + (p2.radius - 1) ^ 2 / 25) +
      (w3.radialVelocity ^ 2 / 2 + (p3.radius - 1) ^ 2 / 25) := by
    rw [totalEnergy_three decayConfig hkval, hb1, hb2, hb3]
  have hTnew : totalEnergy decayConfig
      ([{ p1 with radius := p1.radius +
            ((3119/3125) * w1.radialVelocity - (4/3125) * (p1.radius - 1)) * 0.016 },
        { p2 with radius := p2.radius +
            ((3119/3125) * w2.radialVelocity - (4/3125) * (p2.radius - 1)) * 0.016 },
        { p3 with radius := p3.radius +
            ((3119/3125) * w3.radialVelocity - (4/3125) * (p3.radius - 1)) * 0.016 }],
       [{ w1 with radialVelocity :=
            (3119/3125) * w1.radialVelocity - (4/3125) * (p1.radius - 1) },
        { w2 with radialVelocity :=
            (3119/3125) * w2.radialVelocity - (4/3125) * (p2.radius - 1) },
        { w3 with radialVelocity :=
            (3119/3125) * w3.radialVelocity - (4/3125) * (p3.radius - 1) }]) =
      (((3119/3125) * w1.radialVelocity - (4/3125) * (p1.radius - 1)) ^ 2 / 2 +
        ((p1.radius - 1) +
          ((3119/3125) * w1.radialVelocity - (4/3125) * (p1.radius - 1)) * 0.016) ^ 2 / 25) +
      (((3119/3125) * w2.radialVelocity - (4/3125) * (p2.radius - 1)) ^ 2 / 2 +
        ((p2.radius - 1) +
          ((3119/3125) * w2.radialVelocity - (4/3125) * (p2.radius - 1)) * 0.016) ^ 2 / 25) +
      (((3119/3125) * w3.radialVelocity - (4/3125) * (p3.radius - 1)) ^ 2 / 2 +
        ((p3.radius - 1) +
          ((3119/3125) * w3.radialVelocity - (4/3125) * (p3.radius - 1)) * 0.016) ^ 2 / 25) := by
    rw [totalEnergy_three decayConfig hkval]
    dsimp only
    rw [hb1, hb2, hb3]
    ring
  refine ⟨?_, ?_, ?_⟩
  · refine ⟨_, _, _, _, _, _, rfl, hb1, hb2, hb3, ?_, ?_, ?_⟩ <;> dsimp only
    · nlinarith [hq1, hE1, sq_nonneg (p1.radius - 1), sq_nonneg w1.radialVelocity]
    · nlinarith [hq2, hE2, sq_nonneg (p2.radius - 1), sq_nonneg w2.radialVelocity]
    · nlinarith [hq3, hE3, sq_nonneg (p3.radius - 1), sq_nonneg w3.radialVelocity]
  · rw [hTnew, hTold]
    linarith [hq1, hq2, hq3,
      sq_nonneg (p1.radius - 1), sq_nonneg w1.radialVelocity,
      sq_nonneg (p2.radius - 1), sq_nonneg w2.radialVelocity,
      sq_nonneg (p3.radius - 1), sq_nonneg w3.radialVelocity]
  · intro hpos
    rw [hTold] at hpos
    rw [hTnew, hTold]
    linarith [hq1, hq2, hq3, hpos,
      sq_nonneg (p1.radius - 1), sq_nonneg w1.radialVelocity,
      sq_nonneg (p2.radius - 1), sq_nonneg w2.radialVelocity,
      sq_nonneg (p3.radius - 1), sq_nonneg w3.radialVelocity]

theorem decay_inv_iter (s : List ControlPoint × List ControlPointVelocity)
    (h : decayInv s) (n : ℕ) :
    decayInv ((springStep decayConfig 0.016)^[n] s) ∧
    totalEnergy decayConfig ((springStep decayConfig 0.016)^[n] s) ≤
      totalEnergy decayConfig s := by
  induction n with
  | zero => exact ⟨h, le_refl _⟩
  | succ m ih =>
    rw [Function.iterate_succ_apply']
    obtain ⟨hinv, hle⟩ := ih
    obtain ⟨hinv2, hle2, _⟩ := decay_inv_step _ hinv
    exact ⟨hinv2, le_trans hle2 hle⟩

/-- Claim C2 as amended: for a three-point system run by
`updateAllControlPoints` with the orchestrator's fixed `dt = 0.016`, zero
external force at every step, and the default configuration restricted to
its energy-tracked forces (surface tension and neighbor coupling off,
neutral pressure; damping 0.12 > 0), starting from unit base radii and a
bounded perturbation (per-point tracked energy at most 1/800, which keeps
both integrator clamps inactive): the total energy
`getKineticEnergy + getPotentialEnergy` never increases from one tick to
the next, and if the system does not already satisfy `isAtRest` at the
default threshold it is strictly below its initial energy after every
N ≥ 100 steps (indeed after every N ≥ 1). -/
theorem spring_energy_decay (p1 p2 p3 : ControlPoint) (w1 w2 w3 : ControlPointVelocity)
    (hb1 : p1.baseRadius = 1) (hb2 : p2.baseRadius = 1) (hb3 : p3.baseRadius = 1)
    (hE1 : w1.radialVelocity ^ 2 / 2 + (p1.radius - 1) ^ 2 / 25 ≤ 1 / 800)
    (hE2 : w2.radialVelocity ^ 2 / 2 + (p2.radius - 1) ^ 2 / 25 ≤ 1 / 800)
    (hE3 : w3.radialVelocity ^ 2 / 2 + (p3.radius - 1) ^ 2 / 25 ≤ 1 / 800)
    (hrest : isAtRest decayConfig [p1, p2, p3] [w1, w2, w3] 0.001 = false) :
    (∀ n : ℕ,
      totalEnergy decayConfig
        ((springStep decayConfig 0.016)^[n + 1] ([p1, p2, p3], [w1, w2, w3])) ≤
      totalEnergy decayConfig
        ((springStep decayConfig 0.016)^[n] ([p1, p2, p3], [w1, w2, w3]))) ∧
    (∀ N : ℕ, 100 ≤ N →
      totalEnergy decayConfig
        ((springStep decayConfig 0.016)^[N] ([p1, p2, p3], [w1, w2, w3])) <
      totalEnergy decayConfig ([p1, p2, p3], [w1, w2, w3])) := by
  set s0 : List ControlPoint × List ControlPointVelocity :=
    ([p1, p2, p3], [w1, w2, w3]) with hs0
  have hinv0 : decayInv s0 := ⟨p1, p2, p3, w1, w2, w3, rfl, hb1, hb2, hb3, hE1, hE2, hE3⟩
  have hpos : 0 < totalEnergy decayConfig s0 := by
    unfold isAtRest at hrest
    rw [decide_eq_false_iff_not, not_lt] at hrest
    have : totalEnergy decayConfig s0 =
        getKineticEnergy [w1, w2, w3] + getPotentialEnergy decayConfig [p1, p2, p3] := rfl
    rw [this]
    linarith
  constructor
  · intro n
    rw [Function.iterate_succ_apply']
    exact (decay_inv_step _ (decay_inv_iter s0 hinv0 n).1).2.1
  · intro N hN
    obtain ⟨M, rfl⟩ : ∃ M, N = M + 1 := ⟨N - 1, by omega⟩
    have hstrict : totalEnergy decayConfig (springStep decayConfig 0.016 s0) <
        totalEnergy decayConfig s0 := (decay_inv_step s0 hinv0).2.2 hpos
    have hiter := decay_inv_iter (springStep decayConfig 0.016 s0)
      (decay_inv_step s0 hinv0).1 M
    rw [Function.iterate_succ_apply]
    exact lt_of_le_of_lt hiter.2 hstrict

/-- Witness for C2 at a uniform 10%-inflated three-point system at rest
velocity, which is not `isAtRest` (energy 0.0012 ≥ 0.001); instantiated at
one tick and at N = 100. -/
theorem spring_energy_decay_witness :
    (totalEnergy decayConfig
      ((springStep decayConfig 0.016)^[1]
        ([⟨11/10, 0, 0, 1, 0, 0, 0⟩, ⟨11/10, 0, 0, 1, 0, 0, 0⟩, ⟨11/10, 0, 0, 1, 0, 0, 0⟩],
         [⟨0, 0, 0⟩, ⟨0, 0, 0⟩, ⟨0, 0, 0⟩])) ≤
    totalEnergy decayConfig
      ((springStep decayConfig 0.016)^[0]
        ([⟨11/10, 0, 0, 1, 0, 0, 0⟩, ⟨11/10, 0, 0, 1, 0, 0, 0⟩, ⟨11/10, 0, 0, 1, 0, 0, 0⟩],
         [⟨0, 0, 0⟩, ⟨0, 0, 0⟩, ⟨0, 0, 0⟩]))) ∧
    totalEnergy decayConfig
      ((springStep decayConfig 0.016)^[100]
        ([⟨11/10, 0, 0, 1, 0, 0, 0⟩, ⟨11/10, 0, 0, 1, 0, 0, 0⟩, ⟨11/10, 0, 0, 1, 0, 0, 0⟩],
         [⟨0, 0, 0⟩, ⟨0, 0, 0⟩, ⟨0, 0, 0⟩])) <
    totalEnergy decayConfig
      ([⟨11/10, 0, 0, 1, 0, 0, 0⟩, ⟨11/10, 0, 0, 1, 0, 0, 0⟩, ⟨11/10, 0, 0, 1, 0, 0, 0⟩],
       [⟨0, 0, 0⟩, ⟨0, 0, 0⟩, ⟨0, 0, 0⟩]) := by
  have h := spring_energy_decay ⟨11/10, 0, 0, 1, 0, 0, 0⟩ ⟨11/10, 0, 0, 1, 0, 0, 0⟩
    ⟨11/10, 0, 0, 1, 0, 0, 0⟩ ⟨0, 0, 0⟩ ⟨0, 0, 0⟩ ⟨0, 0, 0⟩ rfl rfl rfl
    (by norm_num) (by norm_num) (by norm_num)
    (by
      unfold isAtRest getKineticEnergy getPotentialEnergy
      rw [decide_eq_false_iff_not, not_lt]
      norm_num [decayConfig, DEFAULT_SPRING_CONFIG])
  exact ⟨h.1 0, h.2 100 (by norm_num)⟩

/-- Counterexample for C2 as frozen: the all-at-rest three-point system
under the shipped default configuration (damping 0.12 > 0, zero external
force) is a fixed point of `updateAllControlPoints`, so its total energy
after 100 steps equals the initial energy instead of being strictly
smaller. -/
theorem spring_energy_rest_not_strict :
    DEFAULT_SPRING_CONFIG.dampingCoeff > 0 ∧
    ¬ (totalEnergy DEFAULT_SPRING_CONFIG
        ((springStep DEFAULT_SPRING_CONFIG 0.016)^[100]
          ([⟨1, 0, 0, 1, 0, 0, 0⟩, ⟨1, 0, 0, 1, 0, 0, 0⟩, ⟨1, 0, 0, 1, 0, 0, 0⟩],
           [⟨0, 0, 0⟩, ⟨0, 0, 0⟩, ⟨0, 0, 0⟩])) <
      totalEnergy DEFAULT_SPRING_CONFIG
        ([⟨1, 0, 0, 1, 0, 0, 0⟩, ⟨1, 0, 0, 1, 0, 0, 0⟩, ⟨1, 0, 0, 1, 0, 0, 0⟩],
         [⟨0, 0, 0⟩, ⟨0, 0, 0⟩, ⟨0, 0, 0⟩])) := by
  constructor
  · norm_num [DEFAULT_SPRING_CONFIG]
  · have hfix : springStep DEFAULT_SPRING_CONFIG 0.016
        ([⟨1, 0, 0, 1, 0, 0, 0⟩, ⟨1, 0, 0, 1, 0, 0, 0⟩, ⟨1, 0, 0, 1, 0, 0, 0⟩],
         [⟨0, 0, 0⟩, ⟨0, 0, 0⟩, ⟨0, 0, 0⟩]) =
        ([⟨1, 0, 0, 1, 0, 0, 0⟩, ⟨1, 0, 0, 1, 0, 0, 0⟩, ⟨1, 0, 0, 1, 0, 0, 0⟩],
         [⟨0, 0, 0⟩, ⟨0, 0, 0⟩, ⟨0, 0, 0⟩]) := by
      unfold springStep updateAllControlPoints
      have h3 : List.range 3 = [0, 1, 2] := rfl
      norm_num [h3, List.foldl_cons, List.foldl_nil, List.getD_cons_zero,
        List.getD_cons_succ, List.getD_nil, List.set_cons_zero, List.set_cons_succ,
        updateControlPoint, velocityAfterClamp, totalForce, DEFAULT_SPRING_CONFIG,
        min_def, max_def]
    rw [Function.iterate_fixed hfix]
    exact lt_irrefl _

end TinyVectors
